import Mathlib

/-!
Verification development for the peer-to-peer signaling and file-transfer
engine of the `suxingblog-next` repository (`src/stores/webrtcStore.ts`,
primary HTTP-polling store).  The TypeScript store is shallowly embedded:
pure fragments become Lean functions, the stateful handlers become explicit
state-passing functions or step functions over event lists, JS numbers on the
relevant (integral) ranges become `Nat`.
-/

namespace WebRTCStore

/-- Constant `FILE_CHUNK_SIZE = 16 * 1024` (webrtcStore.ts line 7). -/
def FILE_CHUNK_SIZE : Nat := 16 * 1024

/-- High-water mark used by the sender's buffered-amount check:
`FILE_CHUNK_SIZE * 16` (webrtcStore.ts line 860). -/
def HIGH_WATER_MARK : Nat := FILE_CHUNK_SIZE * 16

/-- The chunk slicer: the send loop of `sendFile` repeatedly takes
`selectedFile.slice(offset, offset + FILE_CHUNK_SIZE)` (line 866) and
advances `offset` by the chunk's byte length, until `totalChunks` chunks
have been produced.  `chunkList C l` is that sequence of slices. -/
def chunkList (C : Nat) : List α → List (List α)
  | [] => []
  | a :: l =>
    if C = 0 then []
    else (a :: l).take C :: chunkList C ((a :: l).drop C)
termination_by l => l.length
decreasing_by
  simp only [List.length_drop, List.length_cons]
  omega

theorem chunkList_nil {C : Nat} : chunkList C ([] : List α) = [] := by
  simp [chunkList]

theorem chunkList_cons {C : Nat} (hC : 0 < C) (a : α) (l : List α) :
    chunkList C (a :: l) = (a :: l).take C :: chunkList C ((a :: l).drop C) := by
  rw [chunkList]
  simp [Nat.pos_iff_ne_zero.mp hC]

/-- Concatenating the slices in order reproduces the original byte sequence. -/
theorem chunkList_flatten {C : Nat} (hC : 0 < C) :
    ∀ l : List α, (chunkList C l).flatten = l := by
  have key : ∀ n, ∀ l : List α, l.length = n → (chunkList C l).flatten = l := by
    intro n
    induction n using Nat.strong_induction_on with
    | _ n ih =>
      intro l hn
      cases l with
      | nil => simp [chunkList_nil]
      | cons a l' =>
        rw [chunkList_cons hC]
        simp only [List.length_cons] at hn
        have hdrop : ((a :: l').drop C).length < n := by
          simp only [List.length_drop, List.length_cons]
          omega
        rw [List.flatten_cons, ih _ hdrop _ rfl, List.take_append_drop]
  exact fun l => key l.length l rfl

/-- The number of slices equals `Math.ceil(size / CHUNK_SIZE)` as computed in
`sendFile` (line 831), i.e. `(size + C - 1) / C` over `Nat`. -/
theorem chunkList_length {C : Nat} (hC : 0 < C) :
    ∀ l : List α, (chunkList C l).length = (l.length + C - 1) / C := by
  have key : ∀ n, ∀ l : List α, l.length = n →
      (chunkList C l).length = (l.length + C - 1) / C := by
    intro n
    induction n using Nat.strong_induction_on with
    | _ n ih =>
      intro l hn
      cases l with
      | nil =>
        rw [chunkList_nil]
        simp only [List.length_nil]
        rw [Nat.div_eq_of_lt (by omega)]
      | cons a l' =>
        rw [chunkList_cons hC]
        simp only [List.length_cons] at hn
        have hdrop : ((a :: l').drop C).length < n := by
          simp only [List.length_drop, List.length_cons]
          omega
        rw [List.length_cons, ih _ hdrop _ rfl]
        simp only [List.length_drop, List.length_cons]
        rcases le_or_lt (l'.length + 1) C with hle | hlt
        · have h0 : l'.length + 1 - C = 0 := by omega
          rw [h0]
          have h1 : (0 + C - 1) / C = 0 := Nat.div_eq_of_lt (by omega)
          have h2 : (l'.length + 1 + C - 1) / C = 1 := by
            apply Nat.div_eq_of_lt_le <;> omega
          omega
        · have h1 : l'.length + 1 - C + C - 1 = l'.length := by omega
          have h2 : l'.length + 1 + C - 1 = l'.length + C := by omega
          rw [h1, h2, Nat.add_div_right _ hC]
  exact fun l => key l.length l rfl

/-- Every slice is non-empty and at most `C` long. -/
theorem chunkList_mem_length {C : Nat} (hC : 0 < C) :
    ∀ l : List α, ∀ c ∈ chunkList C l, 0 < c.length ∧ c.length ≤ C := by
  have key : ∀ n, ∀ l : List α, l.length = n →
      ∀ c ∈ chunkList C l, 0 < c.length ∧ c.length ≤ C := by
    intro n
    induction n using Nat.strong_induction_on with
    | _ n ih =>
      intro l hn
      cases l with
      | nil => simp [chunkList_nil]
      | cons a l' =>
        rw [chunkList_cons hC]
        simp only [List.length_cons] at hn
        intro c hc
        rcases List.mem_cons.mp hc with h | h
        · subst h
          constructor
          · simp only [List.length_take, List.length_cons]
            omega
          · simp only [List.length_take]
            omega
        · have hdrop : ((a :: l').drop C).length < n := by
            simp only [List.length_drop, List.length_cons]
            omega
          exact ih _ hdrop _ rfl c h
  exact fun l => key l.length l rfl

/-- Every slice except possibly the final one has length exactly `C`. -/
theorem chunkList_getD_length {C : Nat} (hC : 0 < C) :
    ∀ l : List α, ∀ i, i + 1 < (chunkList C l).length →
      ((chunkList C l).getD i []).length = C := by
  have key : ∀ n, ∀ l : List α, l.length = n → ∀ i, i + 1 < (chunkList C l).length →
      ((chunkList C l).getD i []).length = C := by
    intro n
    induction n using Nat.strong_induction_on with
    | _ n ih =>
      intro l hn
      cases l with
      | nil => simp [chunkList_nil]
      | cons a l' =>
        rw [chunkList_cons hC]
        simp only [List.length_cons] at hn
        intro i hi
        have hdrop : ((a :: l').drop C).length < n := by
          simp only [List.length_drop, List.length_cons]
          omega
        match i with
        | 0 =>
          simp only [List.getD_cons_zero, List.length_take, List.length_cons]
          have hne : chunkList C ((a :: l').drop C) ≠ [] := by
            intro hnil
            rw [hnil] at hi
            simp at hi
          have hlen : 0 < ((a :: l').drop C).length := by
            by_contra hz
            push_neg at hz
            have hzz : (a :: l').drop C = [] := List.eq_nil_of_length_eq_zero (by omega)
            rw [hzz, chunkList_nil] at hne
            exact hne rfl
          simp only [List.length_drop, List.length_cons] at hlen
          omega
        | i + 1 =>
          simp only [List.getD_cons_succ]
          have hi' : i + 1 < (chunkList C ((a :: l').drop C)).length := by
            simp only [List.length_cons] at hi
            omega
          exact ih _ hdrop _ rfl i hi'
  exact fun l => key l.length l rfl

/-! ## File-transfer wire model

The data-channel wire protocol (lines 841 and 871): one JSON text frame
carrying the `file_metadata` control message, then raw binary chunk frames.
Bytes are modelled as `Nat`. -/

/-- A staged local file (`selectedFile`): name, content bytes, MIME type. -/
structure FileData where
  name : String
  bytes : List Nat
  mime : String
deriving DecidableEq

/-- Structure `FileMetadata` (lines 33-39): the `file_metadata` payload.  The source
field `type` is rendered `mime`; `fileId` is irrelevant to every claim and
kept as an opaque string. -/
structure FileMetadata where
  name : String
  size : Nat
  mime : String
  totalChunks : Nat
  fileId : String
deriving DecidableEq

/-- A frame travelling over the data channel: the metadata control message
(a text frame parsing to `file_metadata`), a binary chunk, or any other text
frame (which the receiver merely logs). -/
inductive WireMsg
  | meta (md : FileMetadata)
  | chunk (data : List Nat)
  | text (s : String)
deriving DecidableEq

/-- Whether a frame is a binary chunk frame. -/
def WireMsg.isChunk : WireMsg → Bool
  | .chunk _ => true
  | _ => false

/-- The metadata `sendFile` announces for a staged file (lines 831-838):
`totalChunks = Math.ceil(size / FILE_CHUNK_SIZE)`, which over `Nat` is
`(size + FILE_CHUNK_SIZE - 1) / FILE_CHUNK_SIZE`. -/
def mkMetadata (f : FileData) (fileId : String) : FileMetadata :=
  { name := f.name
    size := f.bytes.length
    mime := f.mime
    totalChunks := (f.bytes.length + FILE_CHUNK_SIZE - 1) / FILE_CHUNK_SIZE
    fileId := fileId }

/-! ## Sender (`sendFile`, lines 817-918) -/

/-- The slice of store state `sendFile` reads and writes.  `dcOpen` stands
for `dataChannelInstance !== null && dataChannelInstance.readyState === 'open'`. -/
structure SenderState where
  selectedFile : Option FileData
  isP2PConnected : Bool
  dcOpen : Bool
  isFileSending : Bool
  fileSendProgress : Nat
deriving DecidableEq

/-- Function `sendFile` (lines 817-918), on the execution where the data channel stays
open and every chunk read succeeds (the in-order lossless channel of the
claims; the abort paths touch no claim).  Returns the boolean result, the
frames pushed onto the data channel in order, and the resulting state:
* guard 1 (line 820): no staged file ⟶ `false`, nothing sent;
* guard 2 (lines 821-824): not connected / channel not open ⟶ `false`;
* guard 3 (line 825): a send already in flight ⟶ `false`, not queued;
* then the metadata frame is sent (line 841), a zero-byte file skips the
  chunk loop and jumps to 100% progress (lines 893-897), otherwise the loop
  sends every `FILE_CHUNK_SIZE` slice in order (lines 899-904), finishing
  with progress 100 and `isFileSending := false` (line 908). -/
def sendFile (st : SenderState) (fileId : String) : Bool × List WireMsg × SenderState :=
  match st.selectedFile with
  | none => (false, [], st)
  | some f =>
    if !(st.isP2PConnected && st.dcOpen) then (false, [], st)
    else if st.isFileSending then (false, [], st)
    else
      let md := mkMetadata f fileId
      if f.bytes.length = 0 then
        (true, [WireMsg.meta md], { st with fileSendProgress := 100, isFileSending := false })
      else
        (true, WireMsg.meta md :: (chunkList FILE_CHUNK_SIZE f.bytes).map WireMsg.chunk,
          { st with fileSendProgress := 100, isFileSending := false })

/-! ## Receiver (`_setupDataChannelEvents` onmessage, lines 586-634) -/

/-- The receiver-side slice of the store.  `hasDownloadUrl` models whether
`receivedFileDownloadUrl` currently holds a live object URL;
`lastReceivedFileData` keeps the reassembled bytes (`new Blob(newChunks)`)
with their metadata. -/
structure ReceiverState where
  receivingFileMetadata : Option FileMetadata
  receivedFileChunks : List (List Nat)
  fileReceiveProgress : Nat
  lastReceivedFileData : Option (List Nat × FileMetadata)
  hasDownloadUrl : Bool
deriving DecidableEq

/-- Models `Math.round((completed / total) * 100)` on exact rationals:
`floor(100 * completed / total + 1/2)`.  The `total = 0` branch is never hit
by any theorem below (a chunk only triggers this computation after a
metadata envelope, and the zero-chunk claims never deliver a chunk). -/
def roundPct (completed total : Nat) : Nat :=
  if total = 0 then 0 else (200 * completed + total) / (2 * total)

/-- The `onmessage` handler (lines 586-634) as a state transformer; the
returned `Bool` records whether this message completed a file (the branch at
lines 618-630 that builds the `Blob`, creates the object URL and exposes the
artifact).
* a `file_metadata` text frame (lines 591-601) revokes the previous download
  URL and resets the reception state for the announced transfer;
* any other text frame is only logged (lines 602-607);
* a binary frame with no open metadata envelope is dropped (lines 610-613);
* otherwise the chunk is appended in arrival order and, exactly when
  `newChunks.length === totalChunks`, the artifact is exposed with progress
  100 (lines 614-630). -/
def dcOnMessage (st : ReceiverState) (m : WireMsg) : ReceiverState × Bool :=
  match m with
  | .meta md =>
    ({ receivingFileMetadata := some md
       receivedFileChunks := []
       fileReceiveProgress := 0
       lastReceivedFileData := none
       hasDownloadUrl := false }, false)
  | .text _ => (st, false)
  | .chunk c =>
    match st.receivingFileMetadata with
    | none => (st, false)
    | some md =>
      let newChunks := st.receivedFileChunks ++ [c]
      if newChunks.length = md.totalChunks then
        ({ st with
            receivedFileChunks := newChunks
            fileReceiveProgress := 100
            lastReceivedFileData := some (newChunks.flatten, md)
            hasDownloadUrl := true }, true)
      else
        ({ st with
            receivedFileChunks := newChunks
            fileReceiveProgress := roundPct newChunks.length md.totalChunks }, false)

/-- Deliver a list of frames to the receiver in order, counting how many of
them completed a file (exposed an artifact). -/
def runReceiver : ReceiverState → List WireMsg → ReceiverState × Nat
  | st, [] => (st, 0)
  | st, m :: ms =>
    let r := dcOnMessage st m
    let rest := runReceiver r.1 ms
    (rest.1, (if r.2 then 1 else 0) + rest.2)

/-- The receiver state before any traffic. -/
def initialReceiver : ReceiverState :=
  { receivingFileMetadata := none
    receivedFileChunks := []
    fileReceiveProgress := 0
    lastReceivedFileData := none
    hasDownloadUrl := false }

theorem runReceiver_append (st : ReceiverState) (ms1 ms2 : List WireMsg) :
    runReceiver st (ms1 ++ ms2) =
      ((runReceiver (runReceiver st ms1).1 ms2).1,
        (runReceiver st ms1).2 + (runReceiver (runReceiver st ms1).1 ms2).2) := by
  induction ms1 generalizing st with
  | nil => simp [runReceiver]
  | cons m ms ih =>
    simp only [List.cons_append, runReceiver, List.append_eq]
    rw [ih]
    rw [Nat.add_assoc]

/-- Delivering chunks none of which brings the count to `totalChunks`
(either all staying below it, or the count already being at or past it):
every chunk is appended in order, nothing is exposed, and the artifact,
download URL and open metadata envelope are untouched. -/
theorem runReceiver_chunks_miss (cs : List (List Nat)) :
    ∀ st : ReceiverState, ∀ md, st.receivingFileMetadata = some md →
    (∀ k, st.receivedFileChunks.length < k →
        k ≤ st.receivedFileChunks.length + cs.length → k ≠ md.totalChunks) →
    (runReceiver st (cs.map WireMsg.chunk)).2 = 0 ∧
    (runReceiver st (cs.map WireMsg.chunk)).1.receivingFileMetadata = some md ∧
    (runReceiver st (cs.map WireMsg.chunk)).1.receivedFileChunks
        = st.receivedFileChunks ++ cs ∧
    (runReceiver st (cs.map WireMsg.chunk)).1.lastReceivedFileData
        = st.lastReceivedFileData ∧
    (runReceiver st (cs.map WireMsg.chunk)).1.hasDownloadUrl = st.hasDownloadUrl ∧
    (runReceiver st (cs.map WireMsg.chunk)).1.fileReceiveProgress
        = (if cs.isEmpty then st.fileReceiveProgress
           else roundPct (st.receivedFileChunks.length + cs.length) md.totalChunks) := by
  induction cs with
  | nil =>
    intro st md hmd _
    simp [runReceiver, hmd]
  | cons c cs ih =>
    rintro ⟨meta0, chunks0, prog0, last0, url0⟩ md hmd hmiss
    simp only at hmd hmiss
    subst hmd
    have hne : chunks0.length + 1 ≠ md.totalChunks :=
      hmiss _ (by omega) (by simp only [List.length_cons]; omega)
    have hlen : (chunks0 ++ [c]).length = chunks0.length + 1 := by simp
    have ihres := ih
      { receivingFileMetadata := some md
        receivedFileChunks := chunks0 ++ [c]
        fileReceiveProgress := roundPct (chunks0.length + 1) md.totalChunks
        lastReceivedFileData := last0
        hasDownloadUrl := url0 }
      md rfl
      (by
        intro k hk1 hk2
        simp only [List.length_append, List.length_cons, List.length_nil] at hk1 hk2
        exact hmiss k (by omega) (by simp only [List.length_cons]; omega))
    obtain ⟨h0, h1, h2, h3, h4, h5⟩ := ihres
    simp only [List.length_append, List.length_cons, List.length_nil] at h5
    simp only [List.map_cons, runReceiver, dcOnMessage, hlen, if_neg hne]
    refine ⟨by simpa using h0, by simpa using h1, ?_, by simpa using h3,
      by simpa using h4, ?_⟩
    · rw [h2]
      simp
    · rw [h5]
      cases cs with
      | nil => simp
      | cons c2 cs2 =>
        simp only [List.isEmpty_cons, Bool.false_eq_true, if_false, List.length_cons]
        congr 1
        omega

/-- The single `onmessage` step that completes a transfer: when the open
metadata envelope announces `totalChunks` and this chunk is the
`totalChunks`-th one, the artifact is exposed (lines 618-630). -/
theorem dcOnMessage_completes (st : ReceiverState) (md : FileMetadata) (c : List Nat)
    (hmd : st.receivingFileMetadata = some md)
    (hlen : st.receivedFileChunks.length + 1 = md.totalChunks) :
    dcOnMessage st (WireMsg.chunk c) =
      ({ st with
          receivedFileChunks := st.receivedFileChunks ++ [c]
          fileReceiveProgress := 100
          lastReceivedFileData := some ((st.receivedFileChunks ++ [c]).flatten, md)
          hasDownloadUrl := true }, true) := by
  have h : (st.receivedFileChunks ++ [c]).length = md.totalChunks := by
    simpa using hlen
  simp [dcOnMessage, hmd, h]

/-- Delivering, under an open metadata envelope with
`chunksReceived < totalChunks`, enough chunks to reach `totalChunks`:
exactly one artifact is exposed, namely the concatenation of the first
`totalChunks` accumulated chunks tagged with the announced metadata; all
chunks (also the excess ones) are appended; and if the chunk count lands
exactly on `totalChunks` the receive progress ends at 100. -/
theorem runReceiver_chunks_complete (st : ReceiverState) (md : FileMetadata)
    (cs : List (List Nat))
    (hmd : st.receivingFileMetadata = some md)
    (hlt : st.receivedFileChunks.length < md.totalChunks)
    (hge : md.totalChunks ≤ st.receivedFileChunks.length + cs.length) :
    (runReceiver st (cs.map WireMsg.chunk)).2 = 1 ∧
    (runReceiver st (cs.map WireMsg.chunk)).1.receivingFileMetadata = some md ∧
    (runReceiver st (cs.map WireMsg.chunk)).1.receivedFileChunks
        = st.receivedFileChunks ++ cs ∧
    (runReceiver st (cs.map WireMsg.chunk)).1.lastReceivedFileData
        = some (((st.receivedFileChunks ++ cs).take md.totalChunks).flatten, md) ∧
    (runReceiver st (cs.map WireMsg.chunk)).1.hasDownloadUrl = true ∧
    (st.receivedFileChunks.length + cs.length = md.totalChunks →
      (runReceiver st (cs.map WireMsg.chunk)).1.fileReceiveProgress = 100) := by
  obtain ⟨j, hj⟩ : ∃ j, j = md.totalChunks - st.receivedFileChunks.length - 1 := ⟨_, rfl⟩
  have hjlt : j < cs.length := by omega
  have hsplit : cs = cs.take j ++ (cs[j] :: cs.drop (j + 1)) := by
    rw [← List.drop_eq_getElem_cons hjlt, List.take_append_drop]
  have htakej : (cs.take j).length = j := by
    simp only [List.length_take]
    omega
  have miss1 := runReceiver_chunks_miss (cs.take j) st md hmd
    (by
      intro k hk1 hk2
      rw [htakej] at hk2
      omega)
  obtain ⟨e1, m1, c1, a1, u1, p1⟩ := miss1
  set s1 := (runReceiver st ((cs.take j).map WireMsg.chunk)).1 with hs1
  have hs1len : s1.receivedFileChunks.length = st.receivedFileChunks.length + j := by
    rw [c1]
    simp only [List.length_append]
    rw [htakej]
  have hlen1 : s1.receivedFileChunks.length + 1 = md.totalChunks := by omega
  have step2 := dcOnMessage_completes s1 md cs[j] m1 hlen1
  set s2 : ReceiverState :=
    { s1 with
        receivedFileChunks := s1.receivedFileChunks ++ [cs[j]]
        fileReceiveProgress := 100
        lastReceivedFileData := some ((s1.receivedFileChunks ++ [cs[j]]).flatten, md)
        hasDownloadUrl := true } with hs2
  have hs2len : s2.receivedFileChunks.length = md.totalChunks := by
    simp only [hs2, List.length_append, List.length_cons, List.length_nil]
    omega
  have miss3 := runReceiver_chunks_miss (cs.drop (j + 1)) s2 md (by simp [hs2, m1])
    (by
      intro k hk1 hk2
      omega)
  obtain ⟨e3, m3, c3, a3, u3, p3⟩ := miss3
  have hrun : runReceiver st (cs.map WireMsg.chunk)
      = ((runReceiver s2 ((cs.drop (j + 1)).map WireMsg.chunk)).1,
          1 + (runReceiver s2 ((cs.drop (j + 1)).map WireMsg.chunk)).2) := by
    conv_lhs => rw [hsplit]
    rw [List.map_append, runReceiver_append]
    rw [← hs1]
    simp only [List.map_cons, runReceiver]
    rw [step2]
    simp [e1, -List.map_take]
  have hchunksfull : s2.receivedFileChunks ++ cs.drop (j + 1)
      = st.receivedFileChunks ++ cs := by
    simp only [hs2]
    rw [c1]
    conv_rhs => rw [hsplit]
    simp
  have htakeN : (st.receivedFileChunks ++ cs).take md.totalChunks
      = s1.receivedFileChunks ++ [cs[j]] := by
    rw [c1, List.take_append_eq_append_take]
    have hpreN : st.receivedFileChunks.take md.totalChunks = st.receivedFileChunks :=
      List.take_of_length_le (by omega)
    have hNs : md.totalChunks - st.receivedFileChunks.length = j + 1 := by omega
    rw [hpreN, hNs, List.take_succ, List.getElem?_eq_getElem hjlt]
    simp
  rw [hrun]
  refine ⟨by simp [e3, -List.map_drop], by simp [m3, -List.map_drop], ?_, ?_,
    by rw [u3, hs2], ?_⟩
  · simp only [c3]
    exact hchunksfull
  · simp only [a3]
    rw [htakeN]
  · intro hexact
    have hlend : (cs.drop (j + 1)).length = 0 := by
      simp only [List.length_drop]
      omega
    have hd : cs.drop (j + 1) = [] := List.eq_nil_of_length_eq_zero hlend
    simp only [hd, List.map_nil, runReceiver]

/-- The receiver state right after a `file_metadata` control message for
`md` (the reset at lines 594-601). -/
def metaReset (md : FileMetadata) : ReceiverState :=
  { receivingFileMetadata := some md
    receivedFileChunks := []
    fileReceiveProgress := 0
    lastReceivedFileData := none
    hasDownloadUrl := false }

theorem dcOnMessage_meta (rst : ReceiverState) (md : FileMetadata) :
    dcOnMessage rst (WireMsg.meta md) = (metaReset md, false) := rfl

theorem runReceiver_meta_cons (rst : ReceiverState) (md : FileMetadata)
    (ms : List WireMsg) :
    runReceiver rst (WireMsg.meta md :: ms) = runReceiver (metaReset md) ms := by
  simp only [runReceiver, dcOnMessage_meta]
  simp

/-- Traffic containing no binary chunk frame can never expose an artifact or
move the receive progress off `0`: metadata messages reset to that very
shape and other text is ignored. -/
theorem runReceiver_no_chunk (ms : List WireMsg) :
    ∀ st : ReceiverState, (∀ m ∈ ms, m.isChunk = false) →
    st.lastReceivedFileData = none → st.fileReceiveProgress = 0 →
    st.hasDownloadUrl = false →
    (runReceiver st ms).2 = 0 ∧
    (runReceiver st ms).1.lastReceivedFileData = none ∧
    (runReceiver st ms).1.fileReceiveProgress = 0 ∧
    (runReceiver st ms).1.hasDownloadUrl = false := by
  induction ms with
  | nil =>
    intro st _ h1 h2 h3
    simp [runReceiver, h1, h2, h3]
  | cons m ms ih =>
    intro st hnc h1 h2 h3
    have hm := hnc m (List.mem_cons_self m ms)
    have hms : ∀ x ∈ ms, x.isChunk = false := fun x hx => hnc x (List.mem_cons_of_mem m hx)
    match m with
    | .meta md =>
      rw [runReceiver_meta_cons]
      exact ⟨(ih _ hms rfl rfl rfl).1, (ih _ hms rfl rfl rfl).2⟩
    | .chunk c => simp [WireMsg.isChunk] at hm
    | .text str =>
      have hres := ih st hms h1 h2 h3
      simp only [runReceiver, dcOnMessage]
      refine ⟨by simpa using hres.1, hres.2.1, hres.2.2.1, hres.2.2.2⟩

/-! ## Claim theorems for the file-transfer engine -/

theorem sendFile_zero_byte_core (st : SenderState) (f : FileData) (fileId : String)
    (hf : st.selectedFile = some f) (hz : f.bytes = [])
    (hconn : st.isP2PConnected = true) (hdc : st.dcOpen = true)
    (hns : st.isFileSending = false) :
    (sendFile st fileId).1 = true ∧
    (sendFile st fileId).2.1 = [WireMsg.meta (mkMetadata f fileId)] ∧
    (mkMetadata f fileId).totalChunks = 0 ∧
    (sendFile st fileId).2.2.fileSendProgress = 100 ∧
    (∀ m ∈ (sendFile st fileId).2.1, m.isChunk = false) := by
  have hlen : f.bytes.length = 0 := by rw [hz]; rfl
  have htc : (mkMetadata f fileId).totalChunks = 0 := by
    simp only [mkMetadata, hlen]
    decide
  refine ⟨?_, ?_, htc, ?_, ?_⟩ <;>
    simp [sendFile, hf, hconn, hdc, hns, hlen, WireMsg.isChunk]

/-- C5: when `sendFile` runs with a staged zero-byte file over a connected
session, `totalChunkCount = 0`, the metadata control message is still the
only frame sent (no binary chunk frame), send progress reports 100% and
`sendFile` returns success (lines 831-847 and 891-909). -/
theorem sendFile_zero_byte (st : SenderState) (f : FileData) (fileId : String)
    (hf : st.selectedFile = some f) (hz : f.bytes = [])
    (hconn : st.isP2PConnected = true) (hdc : st.dcOpen = true)
    (hns : st.isFileSending = false) :
    (sendFile st fileId).1 = true ∧
    (sendFile st fileId).2.1 = [WireMsg.meta (mkMetadata f fileId)] ∧
    (mkMetadata f fileId).totalChunks = 0 ∧
    (sendFile st fileId).2.2.fileSendProgress = 100 ∧
    (∀ m ∈ (sendFile st fileId).2.1, m.isChunk = false) :=
  sendFile_zero_byte_core st f fileId hf hz hconn hdc hns

/-- A concrete zero-byte file and a sender state ready to send it. -/
def zeroFile : FileData :=
  { name := "empty.bin", bytes := [], mime := "application/octet-stream" }

def senderZero : SenderState :=
  { selectedFile := some zeroFile
    isP2PConnected := true
    dcOpen := true
    isFileSending := false
    fileSendProgress := 0 }

theorem sendFile_zero_byte_witness :
    (senderZero.selectedFile = some zeroFile ∧ zeroFile.bytes = []) ∧
    ((sendFile senderZero "f0").1 = true ∧
      (sendFile senderZero "f0").2.1 = [WireMsg.meta (mkMetadata zeroFile "f0")] ∧
      (mkMetadata zeroFile "f0").totalChunks = 0 ∧
      (sendFile senderZero "f0").2.2.fileSendProgress = 100 ∧
      (∀ m ∈ (sendFile senderZero "f0").2.1, m.isChunk = false)) :=
  ⟨⟨rfl, rfl⟩, sendFile_zero_byte senderZero zeroFile "f0" rfl rfl rfl rfl rfl⟩

/-- C7: `sendFile` fails, returning `false` and transmitting nothing (neither
metadata nor chunks, and leaving the state untouched) whenever no file is
staged, or no open connected data channel exists, or a send is already in
progress; a concurrent send attempt is rejected, not queued (lines 817-826). -/
theorem sendFile_preconditions (st : SenderState) (fileId : String)
    (h : st.selectedFile = none ∨ st.isP2PConnected = false ∨ st.dcOpen = false ∨
      st.isFileSending = true) :
    (sendFile st fileId).1 = false ∧ (sendFile st fileId).2.1 = [] ∧
    (sendFile st fileId).2.2 = st := by
  obtain ⟨sf, conn, dco, sending, prog⟩ := st
  simp only at h
  cases sf <;> cases conn <;> cases dco <;> cases sending <;>
    simp_all [sendFile]

def senderBusy : SenderState :=
  { selectedFile := some zeroFile
    isP2PConnected := true
    dcOpen := true
    isFileSending := true
    fileSendProgress := 40 }

theorem sendFile_preconditions_witness :
    (senderBusy.selectedFile = none ∨ senderBusy.isP2PConnected = false ∨
      senderBusy.dcOpen = false ∨ senderBusy.isFileSending = true) ∧
    ((sendFile senderBusy "f1").1 = false ∧ (sendFile senderBusy "f1").2.1 = [] ∧
      (sendFile senderBusy "f1").2.2 = senderBusy) :=
  ⟨by decide, sendFile_preconditions senderBusy "f1" (by decide)⟩

/-- C1 (amended to files of at least one byte): over an in-order lossless
channel, `sendFile` transmits one metadata control message followed by
`totalChunks = ceil(S / FILE_CHUNK_SIZE)` binary chunks — each of size
`FILE_CHUNK_SIZE` except a possibly shorter (non-empty) final chunk — and the
receiver's `onmessage` handler, after accumulating exactly `totalChunks`
chunks in arrival order, exposes exactly one artifact whose concatenated
bytes equal the original file's bytes and whose metadata is the announced
envelope, with receive progress 100. -/
theorem sendFile_roundtrip_reassembly (st : SenderState) (f : FileData)
    (fileId : String) (rst : ReceiverState)
    (hf : st.selectedFile = some f) (hne : f.bytes ≠ [])
    (hconn : st.isP2PConnected = true) (hdc : st.dcOpen = true)
    (hns : st.isFileSending = false) :
    (sendFile st fileId).1 = true ∧
    (sendFile st fileId).2.1
      = WireMsg.meta (mkMetadata f fileId)
          :: (chunkList FILE_CHUNK_SIZE f.bytes).map WireMsg.chunk ∧
    (chunkList FILE_CHUNK_SIZE f.bytes).length = (mkMetadata f fileId).totalChunks ∧
    FILE_CHUNK_SIZE * ((mkMetadata f fileId).totalChunks - 1) < f.bytes.length ∧
    f.bytes.length ≤ FILE_CHUNK_SIZE * (mkMetadata f fileId).totalChunks ∧
    (∀ i, i + 1 < (chunkList FILE_CHUNK_SIZE f.bytes).length →
      ((chunkList FILE_CHUNK_SIZE f.bytes).getD i []).length = FILE_CHUNK_SIZE) ∧
    (∀ c ∈ chunkList FILE_CHUNK_SIZE f.bytes,
      0 < c.length ∧ c.length ≤ FILE_CHUNK_SIZE) ∧
    (runReceiver rst (sendFile st fileId).2.1).2 = 1 ∧
    (runReceiver rst (sendFile st fileId).2.1).1.lastReceivedFileData
      = some (f.bytes, mkMetadata f fileId) ∧
    (runReceiver rst (sendFile st fileId).2.1).1.fileReceiveProgress = 100 := by
  have hCpos : 0 < FILE_CHUNK_SIZE := by decide
  have hlenpos : 0 < f.bytes.length := List.length_pos.mpr hne
  have hlenne : ¬ f.bytes.length = 0 := by omega
  have hmsgs : (sendFile st fileId).2.1
      = WireMsg.meta (mkMetadata f fileId)
          :: (chunkList FILE_CHUNK_SIZE f.bytes).map WireMsg.chunk := by
    simp [sendFile, hf, hconn, hdc, hns, hlenne]
  have hok : (sendFile st fileId).1 = true := by
    simp [sendFile, hf, hconn, hdc, hns, hlenne]
  have hcount : (chunkList FILE_CHUNK_SIZE f.bytes).length
      = (mkMetadata f fileId).totalChunks := by
    rw [chunkList_length hCpos]
    rfl
  have hceil : FILE_CHUNK_SIZE * ((mkMetadata f fileId).totalChunks - 1) < f.bytes.length
      ∧ f.bytes.length ≤ FILE_CHUNK_SIZE * (mkMetadata f fileId).totalChunks := by
    have hq := Nat.div_add_mod (f.bytes.length + FILE_CHUNK_SIZE - 1) FILE_CHUNK_SIZE
    have hm := Nat.mod_lt (f.bytes.length + FILE_CHUNK_SIZE - 1) hCpos
    simp only [mkMetadata, FILE_CHUNK_SIZE] at hq hm ⊢
    omega
  have hNpos : 1 ≤ (mkMetadata f fileId).totalChunks := by
    simp only [mkMetadata, FILE_CHUNK_SIZE]
    omega
  have hmeta : runReceiver rst (sendFile st fileId).2.1
      = runReceiver (metaReset (mkMetadata f fileId))
          ((chunkList FILE_CHUNK_SIZE f.bytes).map WireMsg.chunk) := by
    rw [hmsgs, runReceiver_meta_cons]
  have hcross := runReceiver_chunks_complete (metaReset (mkMetadata f fileId))
    (mkMetadata f fileId) (chunkList FILE_CHUNK_SIZE f.bytes) rfl
    (by simpa [metaReset] using hNpos)
    (by simp [metaReset, hcount])
  obtain ⟨he, hm2, hc2, ha2, hu2, hp2⟩ := hcross
  have htake : ((metaReset (mkMetadata f fileId)).receivedFileChunks
        ++ chunkList FILE_CHUNK_SIZE f.bytes).take (mkMetadata f fileId).totalChunks
      = chunkList FILE_CHUNK_SIZE f.bytes := by
    simp only [metaReset, List.nil_append]
    exact List.take_of_length_le (by rw [hcount])
  refine ⟨hok, hmsgs, hcount, hceil.1, hceil.2,
    fun i hi => chunkList_getD_length hCpos f.bytes i hi,
    fun c hc => chunkList_mem_length hCpos f.bytes c hc, ?_, ?_, ?_⟩
  · rw [hmeta]
    exact he
  · rw [hmeta, ha2, htake, chunkList_flatten hCpos]
  · rw [hmeta]
    exact hp2 (by simp [metaReset, hcount])

/-- C1 counterexample at `S = 0`: the claim quantifies over every file size,
but for a zero-byte file `sendFile` succeeds (sending the metadata envelope
with `totalChunks = 0` and no chunks) while the receiver — whose completion
check only runs on arrival of a binary chunk — never exposes any artifact,
so no artifact with the original bytes exists. -/
theorem roundTrip_zero_file_no_artifact :
    (sendFile senderZero "f0").1 = true ∧
    (mkMetadata zeroFile "f0").totalChunks = 0 ∧
    (runReceiver initialReceiver (sendFile senderZero "f0").2.1).1.lastReceivedFileData
      = none ∧
    (runReceiver initialReceiver (sendFile senderZero "f0").2.1).2 = 0 := by
  refine ⟨rfl, ?_, rfl, rfl⟩
  decide

/-- A concrete three-byte file and a sender state ready to send it, used to
witness the round-trip theorem. -/
def tinyFile : FileData :=
  { name := "tiny.bin", bytes := [7, 8, 9], mime := "application/octet-stream" }

def senderTiny : SenderState :=
  { selectedFile := some tinyFile
    isP2PConnected := true
    dcOpen := true
    isFileSending := false
    fileSendProgress := 0 }

theorem sendFile_roundtrip_reassembly_witness :
    (senderTiny.selectedFile = some tinyFile ∧ tinyFile.bytes ≠ []) ∧
    ((sendFile senderTiny "f2").1 = true ∧
      (sendFile senderTiny "f2").2.1
        = WireMsg.meta (mkMetadata tinyFile "f2")
            :: (chunkList FILE_CHUNK_SIZE tinyFile.bytes).map WireMsg.chunk ∧
      (chunkList FILE_CHUNK_SIZE tinyFile.bytes).length
        = (mkMetadata tinyFile "f2").totalChunks ∧
      FILE_CHUNK_SIZE * ((mkMetadata tinyFile "f2").totalChunks - 1)
        < tinyFile.bytes.length ∧
      tinyFile.bytes.length
        ≤ FILE_CHUNK_SIZE * (mkMetadata tinyFile "f2").totalChunks ∧
      (∀ i, i + 1 < (chunkList FILE_CHUNK_SIZE tinyFile.bytes).length →
        ((chunkList FILE_CHUNK_SIZE tinyFile.bytes).getD i []).length
          = FILE_CHUNK_SIZE) ∧
      (∀ c ∈ chunkList FILE_CHUNK_SIZE tinyFile.bytes,
        0 < c.length ∧ c.length ≤ FILE_CHUNK_SIZE) ∧
      (runReceiver initialReceiver (sendFile senderTiny "f2").2.1).2 = 1 ∧
      (runReceiver initialReceiver (sendFile senderTiny "f2").2.1).1.lastReceivedFileData
        = some (tinyFile.bytes, mkMetadata tinyFile "f2") ∧
      (runReceiver initialReceiver (sendFile senderTiny "f2").2.1).1.fileReceiveProgress
        = 100) :=
  ⟨⟨rfl, by decide⟩,
    sendFile_roundtrip_reassembly senderTiny tinyFile "f2" initialReceiver rfl
      (by decide) rfl rfl rfl⟩

/-- C9: after a metadata envelope announcing `totalChunks = N ≥ 1`, the
artifact is created exactly at the arrival of the `N`-th binary chunk: the
metadata message itself exposes nothing, fewer than `N` chunks expose
nothing, and any run with at least `N` chunks exposes exactly one artifact —
the concatenation of the first `N` chunks — while the excess chunks are
still appended to the chunk buffer without creating or replacing the
artifact (lines 589-630). -/
theorem receiver_exposes_once (md : FileMetadata) (rst : ReceiverState)
    (cs : List (List Nat)) (hN : 1 ≤ md.totalChunks) :
    (dcOnMessage rst (WireMsg.meta md)).2 = false ∧
    (cs.length < md.totalChunks →
      (runReceiver (dcOnMessage rst (WireMsg.meta md)).1 (cs.map WireMsg.chunk)).2 = 0 ∧
      (runReceiver (dcOnMessage rst (WireMsg.meta md)).1
        (cs.map WireMsg.chunk)).1.lastReceivedFileData = none) ∧
    (md.totalChunks ≤ cs.length →
      (runReceiver (dcOnMessage rst (WireMsg.meta md)).1 (cs.map WireMsg.chunk)).2 = 1 ∧
      (runReceiver (dcOnMessage rst (WireMsg.meta md)).1
          (cs.map WireMsg.chunk)).1.lastReceivedFileData
        = some ((cs.take md.totalChunks).flatten, md) ∧
      (runReceiver (dcOnMessage rst (WireMsg.meta md)).1
          (cs.map WireMsg.chunk)).1.receivedFileChunks = cs ∧
      (runReceiver (dcOnMessage rst (WireMsg.meta md)).1
        ((cs.take (md.totalChunks - 1)).map WireMsg.chunk)).2 = 0) := by
  rw [dcOnMessage_meta]
  refine ⟨rfl, ?_, ?_⟩
  · intro hlt
    have hmiss := runReceiver_chunks_miss cs (metaReset md) md rfl
      (by
        intro k hk1 hk2
        simp only [metaReset, List.length_nil] at hk1 hk2
        omega)
    exact ⟨hmiss.1, by rw [hmiss.2.2.2.1]; rfl⟩
  · intro hge
    have hcross := runReceiver_chunks_complete (metaReset md) md cs rfl
      (by simpa [metaReset] using hN)
      (by simpa [metaReset] using hge)
    obtain ⟨he, hm2, hc2, ha2, hu2, hp2⟩ := hcross
    have hmiss := runReceiver_chunks_miss (cs.take (md.totalChunks - 1))
      (metaReset md) md rfl
      (by
        intro k hk1 hk2
        simp only [metaReset, List.length_nil, List.length_take] at hk1 hk2
        omega)
    refine ⟨he, ?_, by simpa [metaReset] using hc2, hmiss.1⟩
    rw [ha2]
    simp [metaReset]

def mdTwo : FileMetadata :=
  { name := "two.bin", size := 2, mime := "application/octet-stream",
    totalChunks := 2, fileId := "f3" }

theorem receiver_exposes_once_witness :
    (1 ≤ mdTwo.totalChunks) ∧
    ((dcOnMessage initialReceiver (WireMsg.meta mdTwo)).2 = false ∧
      (([[1], [2], [3]] : List (List Nat)).length < mdTwo.totalChunks →
        (runReceiver (dcOnMessage initialReceiver (WireMsg.meta mdTwo)).1
          (([[1], [2], [3]] : List (List Nat)).map WireMsg.chunk)).2 = 0 ∧
        (runReceiver (dcOnMessage initialReceiver (WireMsg.meta mdTwo)).1
          (([[1], [2], [3]] : List (List Nat)).map WireMsg.chunk)).1.lastReceivedFileData
          = none) ∧
      (mdTwo.totalChunks ≤ ([[1], [2], [3]] : List (List Nat)).length →
        (runReceiver (dcOnMessage initialReceiver (WireMsg.meta mdTwo)).1
          (([[1], [2], [3]] : List (List Nat)).map WireMsg.chunk)).2 = 1 ∧
        (runReceiver (dcOnMessage initialReceiver (WireMsg.meta mdTwo)).1
            (([[1], [2], [3]] : List (List Nat)).map WireMsg.chunk)).1.lastReceivedFileData
          = some ((([[1], [2], [3]] : List (List Nat)).take mdTwo.totalChunks).flatten,
              mdTwo) ∧
        (runReceiver (dcOnMessage initialReceiver (WireMsg.meta mdTwo)).1
            (([[1], [2], [3]] : List (List Nat)).map WireMsg.chunk)).1.receivedFileChunks
          = [[1], [2], [3]] ∧
        (runReceiver (dcOnMessage initialReceiver (WireMsg.meta mdTwo)).1
          ((([[1], [2], [3]] : List (List Nat)).take (mdTwo.totalChunks - 1)).map
            WireMsg.chunk)).2 = 0)) :=
  ⟨by decide, receiver_exposes_once mdTwo initialReceiver [[1], [2], [3]] (by decide)⟩

/-- C10: for a zero-byte staged file the sender announces `totalChunks = 0`,
sends no chunk, and reports 100% — while the receiver, on that metadata
envelope, resets its state with progress 0 and then, completion being
checked only on binary-chunk arrival and none arriving, never exposes an
artifact or a download URL and never reaches progress 100, over any further
chunk-free traffic. -/
theorem receiver_zero_chunk_never_completes (st : SenderState) (f : FileData)
    (fileId : String) (rst : ReceiverState) (ms : List WireMsg)
    (hf : st.selectedFile = some f) (hz : f.bytes = [])
    (hconn : st.isP2PConnected = true) (hdc : st.dcOpen = true)
    (hns : st.isFileSending = false)
    (hnochunk : ∀ m ∈ ms, m.isChunk = false) :
    (mkMetadata f fileId).totalChunks = 0 ∧
    (sendFile st fileId).2.1 = [WireMsg.meta (mkMetadata f fileId)] ∧
    (sendFile st fileId).2.2.fileSendProgress = 100 ∧
    (dcOnMessage rst (WireMsg.meta (mkMetadata f fileId))).1.fileReceiveProgress = 0 ∧
    (runReceiver rst ((sendFile st fileId).2.1 ++ ms)).2 = 0 ∧
    (runReceiver rst ((sendFile st fileId).2.1 ++ ms)).1.lastReceivedFileData = none ∧
    (runReceiver rst ((sendFile st fileId).2.1 ++ ms)).1.fileReceiveProgress = 0 ∧
    (runReceiver rst ((sendFile st fileId).2.1 ++ ms)).1.hasDownloadUrl = false := by
  obtain ⟨hok, hmsgs, htc, hprog, _⟩ :=
    sendFile_zero_byte_core st f fileId hf hz hconn hdc hns
  have hrun : runReceiver rst ((sendFile st fileId).2.1 ++ ms)
      = runReceiver (metaReset (mkMetadata f fileId)) ms := by
    rw [hmsgs]
    rw [List.singleton_append, runReceiver_meta_cons]
  have hnc := runReceiver_no_chunk ms (metaReset (mkMetadata f fileId)) hnochunk
    rfl rfl rfl
  rw [hrun]
  exact ⟨htc, hmsgs, hprog, rfl, hnc.1, hnc.2.1, hnc.2.2.1, hnc.2.2.2⟩

theorem receiver_zero_chunk_never_completes_witness :
    (senderZero.selectedFile = some zeroFile ∧ zeroFile.bytes = [] ∧
      (∀ m ∈ ([WireMsg.text "ping"] : List WireMsg), m.isChunk = false)) ∧
    ((mkMetadata zeroFile "f0").totalChunks = 0 ∧
      (sendFile senderZero "f0").2.1 = [WireMsg.meta (mkMetadata zeroFile "f0")] ∧
      (sendFile senderZero "f0").2.2.fileSendProgress = 100 ∧
      (dcOnMessage initialReceiver
        (WireMsg.meta (mkMetadata zeroFile "f0"))).1.fileReceiveProgress = 0 ∧
      (runReceiver initialReceiver
        ((sendFile senderZero "f0").2.1 ++ [WireMsg.text "ping"])).2 = 0 ∧
      (runReceiver initialReceiver
        ((sendFile senderZero "f0").2.1
          ++ [WireMsg.text "ping"])).1.lastReceivedFileData = none ∧
      (runReceiver initialReceiver
        ((sendFile senderZero "f0").2.1
          ++ [WireMsg.text "ping"])).1.fileReceiveProgress = 0 ∧
      (runReceiver initialReceiver
        ((sendFile senderZero "f0").2.1
          ++ [WireMsg.text "ping"])).1.hasDownloadUrl = false) :=
  ⟨⟨rfl, rfl, by decide⟩,
    receiver_zero_chunk_never_completes senderZero zeroFile "f0" initialReceiver
      [WireMsg.text "ping"] rfl rfl rfl rfl rfl (by decide)⟩

/-! ## Backpressure (`readAndSendChunk`, lines 853-889)

The chunk-send loop is modelled as a small-step system.  The environment
drains the channel buffer by arbitrary amounts; each sender wake-up
(`readAndSendChunk` being invoked, either from the main loop or from the
`setTimeout(..., 50)` retry at line 862) checks `bufferedAmount` against the
high-water mark `FILE_CHUNK_SIZE * 16` (line 860) and either defers — no
frame enqueued, re-poll later — or reads the next slice and enqueues it. -/

/-- Buffered bytes in the data channel, the chunks still to send, and how
many chunks have been sent (`chunkCount`). -/
structure SendLoopState where
  buffered : Nat
  pending : List (List Nat)
  sent : Nat
deriving DecidableEq

/-- An event of the send loop: a sender wake-up, or the transport flushing
`d` bytes out of the buffer. -/
inductive SendLoopEvent
  | attempt
  | drain (d : Nat)
deriving DecidableEq

/-- One step of the loop.  `attempt` with `bufferedAmount > HIGH_WATER_MARK`
is the deferral branch (line 860-864): nothing is enqueued and the sender
will poll again; otherwise the head chunk is read and sent (lines 866-876),
growing the buffer by its byte length. -/
def sendLoopStep (s : SendLoopState) : SendLoopEvent → SendLoopState
  | .drain d => { s with buffered := s.buffered - d }
  | .attempt =>
    if s.buffered > HIGH_WATER_MARK then s
    else
      match s.pending with
      | [] => s
      | c :: rest =>
        { buffered := s.buffered + c.length, pending := rest, sent := s.sent + 1 }

/-- Run the send loop over a sequence of events. -/
def runSendLoop (s : SendLoopState) (evts : List SendLoopEvent) : SendLoopState :=
  evts.foldl sendLoopStep s

/-- The loop state at the start of a send of `bytes`: empty buffer, all
slices pending. -/
def initSendLoop (bytes : List Nat) : SendLoopState :=
  { buffered := 0, pending := chunkList FILE_CHUNK_SIZE bytes, sent := 0 }

theorem sendLoopStep_invariant (s : SendLoopState) (e : SendLoopEvent)
    (hb : s.buffered ≤ HIGH_WATER_MARK + FILE_CHUNK_SIZE)
    (hp : ∀ c ∈ s.pending, c.length ≤ FILE_CHUNK_SIZE) :
    (sendLoopStep s e).buffered ≤ HIGH_WATER_MARK + FILE_CHUNK_SIZE ∧
    (∀ c ∈ (sendLoopStep s e).pending, c.length ≤ FILE_CHUNK_SIZE) := by
  match e with
  | .drain d =>
    refine ⟨?_, hp⟩
    simp only [sendLoopStep]
    omega
  | .attempt =>
    simp only [sendLoopStep]
    by_cases hgt : s.buffered > HIGH_WATER_MARK
    · simp only [if_pos hgt]
      exact ⟨hb, hp⟩
    · simp only [if_neg hgt]
      match hpend : s.pending with
      | [] => exact ⟨hb, hp⟩
      | c :: rest =>
        have hc := hp c (by rw [hpend]; exact List.mem_cons_self c rest)
        refine ⟨by simp; omega, ?_⟩
        intro x hx
        exact hp x (by rw [hpend]; exact List.mem_cons_of_mem c hx)

/-- C2: backpressure.  Starting a send of any file, whatever interleaving of
sender wake-ups and transport drains occurs, the channel's buffered amount
never exceeds the high-water mark (16 chunk sizes) by more than one
in-flight chunk; and a wake-up that finds the buffer above the high-water
mark enqueues nothing at all (it defers and re-polls). -/
theorem sendLoop_backpressure (bytes : List Nat) (evts : List SendLoopEvent) :
    (runSendLoop (initSendLoop bytes) evts).buffered
      ≤ HIGH_WATER_MARK + FILE_CHUNK_SIZE ∧
    (∀ s : SendLoopState, s.buffered > HIGH_WATER_MARK →
      sendLoopStep s SendLoopEvent.attempt = s) := by
  constructor
  · have hCpos : 0 < FILE_CHUNK_SIZE := by decide
    have key : ∀ (es : List SendLoopEvent) (s : SendLoopState),
        s.buffered ≤ HIGH_WATER_MARK + FILE_CHUNK_SIZE →
        (∀ c ∈ s.pending, c.length ≤ FILE_CHUNK_SIZE) →
        (runSendLoop s es).buffered ≤ HIGH_WATER_MARK + FILE_CHUNK_SIZE := by
      intro es
      induction es with
      | nil => intro s hb _; exact hb
      | cons e es ih =>
        intro s hb hp
        have hstep := sendLoopStep_invariant s e hb hp
        exact ih (sendLoopStep s e) hstep.1 hstep.2
    refine key evts (initSendLoop bytes) (by simp [initSendLoop]) ?_
    intro c hc
    exact (chunkList_mem_length hCpos bytes c hc).2
  · intro s hgt
    simp [sendLoopStep, hgt]

theorem sendLoop_backpressure_witness :
    ((runSendLoop (initSendLoop (List.replicate 40000 7))
        [SendLoopEvent.attempt, SendLoopEvent.attempt, SendLoopEvent.drain 100,
          SendLoopEvent.attempt]).buffered
      ≤ HIGH_WATER_MARK + FILE_CHUNK_SIZE) ∧
    ({ buffered := HIGH_WATER_MARK + 1, pending := [[5]], sent := 0 : SendLoopState}.buffered
        > HIGH_WATER_MARK ∧
      sendLoopStep { buffered := HIGH_WATER_MARK + 1, pending := [[5]], sent := 0 }
          SendLoopEvent.attempt
        = { buffered := HIGH_WATER_MARK + 1, pending := [[5]], sent := 0 }) :=
  ⟨(sendLoop_backpressure (List.replicate 40000 7)
      [SendLoopEvent.attempt, SendLoopEvent.attempt, SendLoopEvent.drain 100,
        SendLoopEvent.attempt]).1,
    by decide,
    (sendLoop_backpressure [] []).2
      { buffered := HIGH_WATER_MARK + 1, pending := [[5]], sent := 0 } (by decide)⟩

/-! ## Signal handling (`_handleReceivedApiSignal`, lines 369-466, and the
polling filter of `_fetchSignals`, lines 315-321)

The handler is embedded as a state transformer that also returns the list of
observable effects it performs (log entries, user notifications, deferred
handler invocations, P2P teardown).  A claim-relevant state/effect pair of
`(st, [])` is exactly "no observable action". -/

inductive SigKind
  | offer | answer | candidate | peerJoined | peerLeft | errorSig | roomState
  | connectedAck
deriving DecidableEq

/-- The kind-specific `payload` field; `empty` stands for a missing/falsy
payload.  Ill-kinded payload/kind combinations (e.g. a `room_state` without a
peer list) are not exercised by any claim and are handled as no-ops beyond
the entry log. -/
inductive SigPayload
  | sdp (descr : String)
  | candidateInit (cand : String)
  | peerEvt (peerId : String)
  | roomStatePeers (peersInRoom : List String)
  | connAckInfo (clientId : String) (roomId : String) (peersInRoom : List String)
  | errorText (message : String)
  | empty
deriving DecidableEq

/-- Reads `signal.payload.peerId` as the peer-event guards do. -/
def payloadPeerId : SigPayload → Option String
  | .peerEvt pid => some pid
  | _ => none

/-- JS truthiness of `signal.payload` as used in the offer/answer/candidate
guards. -/
def payloadTruthy : SigPayload → Bool
  | .empty => false
  | _ => true

/-- Structure `ApiSignal` (lines 13-21) restricted to the fields the handler reads. -/
structure ApiSignal where
  ty : SigKind
  payload : SigPayload
  senderId : Option String
deriving DecidableEq

inductive LogType
  | info | warn | err | recv | send | webrtc | signaling | api
deriving DecidableEq

/-- Observable actions of the handler.  `log` entries model `addLog`;
`notify` models a user-facing notification (`showNotification`, and the
error notification `addLog` raises for error-class entries); the `handle*`
effects are the deferred `_handle*ViaApi` invocations; `closeP2P` marks a
call to `closeP2PConnection`. -/
inductive Effect
  | log (t : LogType) (site : String)
  | notify (site : String)
  | handleOffer (sender : String)
  | handleAnswer (sender : String)
  | handleCandidate (sender : String)
  | closeP2P (site : String)
deriving DecidableEq

/-- Models `addLog` (lines 138-147): one log entry, plus an error notification when
the entry is error-class. -/
def logEff (t : LogType) (site : String) : List Effect :=
  if t = LogType.err then [Effect.log t site, Effect.notify site]
  else [Effect.log t site]

/-- The slice of store state the signal handler reads and writes.  `pcSet`
models `peerConnectionInstance !== null`, `pcClosed` its
`signalingState === 'closed'` flag. -/
structure SigStoreState where
  myClientId : Option String
  currentRoomId : Option String
  peersInSignalRoom : List String
  targetPeerIdForP2P : Option String
  isP2PConnected : Bool
  pcSet : Bool
  pcClosed : Bool
deriving DecidableEq

/-- Models `closeP2PConnection` (lines 763-800) projected onto this state slice:
the instance references are nulled and the connected flag cleared. -/
def closeP2PModel (st : SigStoreState) (site : String) : SigStoreState × List Effect :=
  ({ st with pcSet := false, isP2PConnected := false },
    [Effect.log LogType.webrtc site, Effect.closeP2P site])

/-- Models `setTargetPeerIdForP2P` (lines 468-484). -/
def setTargetPeerIdForP2PModel (st : SigStoreState) (p : Option String) :
    SigStoreState × List Effect :=
  if p = st.targetPeerIdForP2P ∧ p ≠ none then (st, [])
  else
    let r1 := if st.isP2PConnected ∧ st.targetPeerIdForP2P ≠ p
              then closeP2PModel st "switchTarget" else (st, [])
    let st2 := { r1.1 with targetPeerIdForP2P := p }
    match p with
    | some _ => (st2, r1.2 ++ [Effect.log LogType.info "targetSelected"])
    | none =>
      ({ st2 with isP2PConnected := false },
        r1.2 ++ [Effect.log LogType.info "targetCleared"])

/-- Models `_handleReceivedApiSignal` (lines 369-466). -/
def handleReceivedApiSignal (st : SigStoreState) (sig : ApiSignal) :
    SigStoreState × List Effect :=
  match st.myClientId with
  | none => (st, [])
  | some myId =>
    -- line 377: ignore own offer/answer/candidate
    if (sig.ty = SigKind.offer ∨ sig.ty = SigKind.answer ∨ sig.ty = SigKind.candidate)
        ∧ sig.senderId = some myId then (st, [])
    -- line 382: ignore peer events about oneself
    else if (sig.ty = SigKind.peerJoined ∨ sig.ty = SigKind.peerLeft)
        ∧ payloadPeerId sig.payload = some myId then (st, [])
    else
      -- line 388: entry log for every signal that passes the guards
      let base := [Effect.log LogType.recv "handleSignal"]
      match sig.ty with
      | SigKind.connectedAck =>
        match sig.payload with
        | SigPayload.connAckInfo cid rid peers =>
          if cid = myId then
            ({ st with
                currentRoomId := some rid
                peersInSignalRoom := peers.filter (fun p => p ≠ myId) },
              base ++ [Effect.log LogType.signaling "connectedAck"])
          else (st, base)
        | _ => (st, base)
      | SigKind.peerJoined =>
        match sig.payload with
        | SigPayload.peerEvt pid =>
          if pid ≠ myId then
            ({ st with
                peersInSignalRoom :=
                  if st.peersInSignalRoom.contains pid then st.peersInSignalRoom
                  else st.peersInSignalRoom ++ [pid] },
              base ++ [Effect.log LogType.signaling "peerJoined"])
          else (st, base)
        | _ => (st, base)
      | SigKind.peerLeft =>
        match sig.payload with
        | SigPayload.peerEvt pid =>
          let st1 := { st with
            peersInSignalRoom := st.peersInSignalRoom.filter (fun p => p ≠ pid) }
          if st.targetPeerIdForP2P = some pid then
            let r := closeP2PModel st1 "targetLeft"
            ({ r.1 with targetPeerIdForP2P := none },
              base ++ [Effect.log LogType.signaling "peerLeft",
                Effect.log LogType.webrtc "targetLeft"] ++ r.2)
          else (st1, base ++ [Effect.log LogType.signaling "peerLeft"])
        | _ => (st, base)
      | SigKind.offer =>
        match sig.senderId with
        | some sid =>
          if payloadTruthy sig.payload ∧ sid ≠ myId then
            let e1 := [Effect.log LogType.webrtc "offerReceived"]
            let r2 := if st.isP2PConnected ∧ st.targetPeerIdForP2P ≠ some sid
                      then closeP2PModel st "newOfferOverridesOld" else (st, [])
            let r3 := setTargetPeerIdForP2PModel r2.1 (some sid)
            -- line 433: create a fresh connection when none is live
            let r4 :=
              if ¬ r3.1.pcSet ∨ r3.1.pcClosed then
                if r3.1.currentRoomId.isSome then
                  ({ r3.1 with pcSet := true, pcClosed := false },
                    [Effect.log LogType.webrtc "createPeerConnection"])
                else ({ r3.1 with pcSet := false }, logEff LogType.err "createPCFailed")
              else (r3.1, [])
            if r4.1.pcSet then
              (r4.1, base ++ e1 ++ r2.2 ++ r3.2 ++ r4.2 ++ [Effect.handleOffer sid])
            else (r4.1, base ++ e1 ++ r2.2 ++ r3.2 ++ r4.2 ++ logEff LogType.err "noPCForOffer")
          else (st, base)
        | none => (st, base)
      | SigKind.answer =>
        match sig.senderId with
        | some sid =>
          if payloadTruthy sig.payload ∧ st.pcSet ∧ st.targetPeerIdForP2P = some sid then
            (st, base ++ [Effect.handleAnswer sid])
          else (st, base)
        | none => (st, base)
      | SigKind.candidate =>
        match sig.senderId with
        | some sid =>
          if payloadTruthy sig.payload ∧ st.pcSet ∧ st.targetPeerIdForP2P = some sid then
            (st, base ++ [Effect.handleCandidate sid])
          else (st, base)
        | none => (st, base)
      | SigKind.roomState =>
        match sig.payload with
        | SigPayload.roomStatePeers peers =>
          ({ st with peersInSignalRoom := peers.filter (fun p => p ≠ myId) },
            base ++ [Effect.log LogType.signaling "roomState"])
        | _ => (st, base)
      | SigKind.errorSig =>
        (st, base ++ logEff LogType.err "serverErrorSignal"
          ++ [Effect.notify "serverErrorSignal"])

/-- The per-signal dispatch performed by the polling loop `_fetchSignals`
(lines 315-321): self-originated peer events are filtered out before the
handler runs. -/
def dispatchFetchedSignal (st : SigStoreState) (sig : ApiSignal) :
    SigStoreState × List Effect :=
  match st.myClientId with
  | some myId =>
    if (sig.ty = SigKind.peerJoined ∨ sig.ty = SigKind.peerLeft)
        ∧ sig.senderId = some myId then (st, [])
    else handleReceivedApiSignal st sig
  | none => handleReceivedApiSignal st sig

/-- C3 (amended to the peer-addressed kinds): a received SignalEnvelope whose
`senderId` equals the local `myClientId` and whose kind is `offer`, `answer`,
`candidate`, `peer_joined` or `peer_left` produces no observable action at
all — no state change, no log, no notification: own offers/answers/candidates
are dropped by the handler's first guard (line 377) and own peer events are
filtered out by the polling dispatch (lines 315-321).  Backend-originated
kinds (`room_state`, `connected_ack`, `error`) are processed regardless of
`senderId`. -/
theorem handleSignal_self_echo_suppression (st : SigStoreState) (sig : ApiSignal)
    (myId : String) (hmy : st.myClientId = some myId)
    (hsender : sig.senderId = some myId)
    (hkind : sig.ty = SigKind.offer ∨ sig.ty = SigKind.answer ∨
      sig.ty = SigKind.candidate ∨ sig.ty = SigKind.peerJoined ∨
      sig.ty = SigKind.peerLeft) :
    dispatchFetchedSignal st sig = (st, []) := by
  rcases hkind with h | h | h | h | h <;>
    simp [dispatchFetchedSignal, handleReceivedApiSignal, hmy, hsender, h]

/-- A store joined as client `A`, and a server-error signal carrying
`senderId = A`. -/
def selfStore : SigStoreState :=
  { myClientId := some "A"
    currentRoomId := some "room1"
    peersInSignalRoom := ["B"]
    targetPeerIdForP2P := none
    isP2PConnected := false
    pcSet := false
    pcClosed := false }

def selfErrorSignal : ApiSignal :=
  { ty := SigKind.errorSig, payload := SigPayload.errorText "boom",
    senderId := some "A" }

/-- C3 counterexample: an `error`-kind envelope whose `senderId` equals the
local client id is not a room-state snapshot, yet the handler takes
observable action on it (it logs the signal as processed and raises a
user-facing notification), refuting the claim as stated. -/
theorem handleSignal_self_error_acts :
    (dispatchFetchedSignal selfStore selfErrorSignal).2 ≠ [] := by decide

def selfOfferSignal : ApiSignal :=
  { ty := SigKind.offer, payload := SigPayload.sdp "sdp-A", senderId := some "A" }

theorem handleSignal_self_echo_suppression_witness :
    (selfStore.myClientId = some "A" ∧ selfOfferSignal.senderId = some "A" ∧
      (selfOfferSignal.ty = SigKind.offer ∨ selfOfferSignal.ty = SigKind.answer ∨
        selfOfferSignal.ty = SigKind.candidate ∨
        selfOfferSignal.ty = SigKind.peerJoined ∨
        selfOfferSignal.ty = SigKind.peerLeft)) ∧
    dispatchFetchedSignal selfStore selfOfferSignal = (selfStore, []) :=
  ⟨⟨rfl, rfl, Or.inl rfl⟩,
    handleSignal_self_echo_suppression selfStore selfOfferSignal "A" rfl rfl
      (Or.inl rfl)⟩

/-- A backend broadcast that peer `X` joined / left. -/
def mkPeerJoined (X : String) : ApiSignal :=
  { ty := SigKind.peerJoined, payload := SigPayload.peerEvt X, senderId := none }

def mkPeerLeft (X : String) : ApiSignal :=
  { ty := SigKind.peerLeft, payload := SigPayload.peerEvt X, senderId := none }

theorem filter_ne_of_not_mem {X : String} {l : List String} (h : X ∉ l) :
    l.filter (fun p => p ≠ X) = l := by
  refine List.filter_eq_self.mpr ?_
  intro a ha
  simp only [ne_eq, decide_not, Bool.not_eq_true', decide_eq_false_iff_not]
  intro he
  exact h (he ▸ ha)

/-- C6 (amended: the restore property needs `X` absent from the pre-event
peer set): handling `peer-left(X)` always removes `X` from the peer set
(lines 412-416); when `X` was not already present, `peer-joined(X)` followed
by `peer-left(X)` restores the pre-event peer set exactly; and when `X` is
the current P2P target, the peer session is torn down (`closeP2PConnection`)
and the target cleared (lines 417-421).  When `X` was already present the
join is an idempotent no-op and the leave removes `X`, so the pre-event set
is not restored. -/
theorem peer_presence_convergence (st : SigStoreState) (X myId : String)
    (hmy : st.myClientId = some myId) (hX : X ≠ myId) :
    (X ∉ (handleReceivedApiSignal st (mkPeerLeft X)).1.peersInSignalRoom ∧
      (handleReceivedApiSignal st (mkPeerLeft X)).1.peersInSignalRoom
        = st.peersInSignalRoom.filter (fun p => p ≠ X)) ∧
    (X ∉ st.peersInSignalRoom →
      (handleReceivedApiSignal (handleReceivedApiSignal st (mkPeerJoined X)).1
        (mkPeerLeft X)).1.peersInSignalRoom = st.peersInSignalRoom) ∧
    (st.targetPeerIdForP2P = some X →
      (handleReceivedApiSignal st (mkPeerLeft X)).1.targetPeerIdForP2P = none ∧
      (handleReceivedApiSignal st (mkPeerLeft X)).1.isP2PConnected = false ∧
      Effect.closeP2P "targetLeft" ∈ (handleReceivedApiSignal st (mkPeerLeft X)).2) := by
  have hpid : payloadPeerId (mkPeerLeft X).payload = some X := rfl
  refine ⟨⟨?_, ?_⟩, ?_, ?_⟩
  · by_cases ht : st.targetPeerIdForP2P = some X <;>
      simp [handleReceivedApiSignal, mkPeerLeft, payloadPeerId, hmy, hX, ht,
        closeP2PModel, List.mem_filter]
  · by_cases ht : st.targetPeerIdForP2P = some X <;>
      simp [handleReceivedApiSignal, mkPeerLeft, payloadPeerId, hmy, hX, ht,
        closeP2PModel]
  · intro hnot
    have hjoin : (handleReceivedApiSignal st (mkPeerJoined X)).1
        = { st with peersInSignalRoom := st.peersInSignalRoom ++ [X] } := by
      have hcontains : st.peersInSignalRoom.contains X = false := by
        have helem : List.elem X st.peersInSignalRoom = false := by
          rw [List.elem_eq_mem]
          simp [hnot]
        exact helem
      simp [handleReceivedApiSignal, mkPeerJoined, payloadPeerId, hmy, hX, hcontains, hnot]
    rw [hjoin]
    have hflt : st.peersInSignalRoom.filter (fun p => p ≠ X) = st.peersInSignalRoom :=
      filter_ne_of_not_mem hnot
    by_cases ht : st.targetPeerIdForP2P = some X <;>
      · simp [handleReceivedApiSignal, mkPeerLeft, payloadPeerId, hmy, hX, ht,
          closeP2PModel, List.filter_append]
        exact fun x hx he => hnot (he ▸ hx)
  · intro ht
    simp [handleReceivedApiSignal, mkPeerLeft, payloadPeerId, hmy, hX, ht,
      closeP2PModel]

/-- A store whose peer set already contains `X` (e.g. seeded by the join
response) before any peer event arrives. -/
def presenceStoreX : SigStoreState :=
  { myClientId := some "me"
    currentRoomId := some "room1"
    peersInSignalRoom := ["X"]
    targetPeerIdForP2P := none
    isP2PConnected := false
    pcSet := false
    pcClosed := false }

/-- C6 counterexample: with `X` already in the peer set, `peer-joined(X)`
(idempotent, no change) followed by `peer-left(X)` yields a peer set without
`X`, different from the pre-event set — the claimed unconditional restore
fails. -/
theorem peer_left_restore_fails_when_present :
    (handleReceivedApiSignal (handleReceivedApiSignal presenceStoreX
        (mkPeerJoined "X")).1 (mkPeerLeft "X")).1.peersInSignalRoom
      ≠ presenceStoreX.peersInSignalRoom := by decide

def presenceStore : SigStoreState :=
  { myClientId := some "me"
    currentRoomId := some "room1"
    peersInSignalRoom := ["B"]
    targetPeerIdForP2P := some "X"
    isP2PConnected := true
    pcSet := true
    pcClosed := false }

theorem peer_presence_convergence_witness :
    (presenceStore.myClientId = some "me" ∧ "X" ≠ "me") ∧
    ((("X" : String) ∉ (handleReceivedApiSignal presenceStore
          (mkPeerLeft "X")).1.peersInSignalRoom ∧
      (handleReceivedApiSignal presenceStore (mkPeerLeft "X")).1.peersInSignalRoom
        = presenceStore.peersInSignalRoom.filter (fun p => p ≠ "X")) ∧
    (("X" : String) ∉ presenceStore.peersInSignalRoom →
      (handleReceivedApiSignal (handleReceivedApiSignal presenceStore
        (mkPeerJoined "X")).1 (mkPeerLeft "X")).1.peersInSignalRoom
        = presenceStore.peersInSignalRoom) ∧
    (presenceStore.targetPeerIdForP2P = some "X" →
      (handleReceivedApiSignal presenceStore
        (mkPeerLeft "X")).1.targetPeerIdForP2P = none ∧
      (handleReceivedApiSignal presenceStore (mkPeerLeft "X")).1.isP2PConnected
        = false ∧
      Effect.closeP2P "targetLeft"
        ∈ (handleReceivedApiSignal presenceStore (mkPeerLeft "X")).2)) :=
  ⟨⟨rfl, by decide⟩,
    peer_presence_convergence presenceStore "X" "me" rfl (by decide)⟩

/-! ## Inbound ICE-candidate handling (`_handleCandidateViaApi`, lines
735-761, behind the dispatch guard at lines 448-451)

The handler is an async function whose only suspension is the single
`setTimeout(..., 100)` wait; `remoteDescSet0` is whether the peer
connection's remote description is set when the handler starts, and
`remoteDescSet1` whether it is set after that one bounded wait. -/

inductive CandidateOutcome
  | applied
  | droppedGuard
  | droppedClosedPC
  | droppedNoRemoteDesc
  | addFailed
deriving DecidableEq

/-- The full inbound path of a `candidate` signal: the dispatch applies it
only when a `peerConnectionInstance` exists and the sender equals
`targetPeerIdForP2P` (lines 448-451); the handler itself drops it when the
connection is closed (line 739), waits once for ~100 ms when the remote
description is unset and drops the candidate if it is still unset after the
recheck (lines 745-753); otherwise `addIceCandidate` runs and a failure is
only logged (lines 755-760).  The second component reports whether any
branch tears the session down — none does. -/
def handleCandidateSignal (hasSender hasPayload pcExists targetMatch pcClosed
    remoteDescSet0 remoteDescSet1 addOk : Bool) : CandidateOutcome × Bool :=
  if !(hasSender && hasPayload && pcExists && targetMatch) then
    (CandidateOutcome.droppedGuard, false)
  else if pcClosed then (CandidateOutcome.droppedClosedPC, false)
  else if remoteDescSet0 then
    (if addOk then (CandidateOutcome.applied, false)
     else (CandidateOutcome.addFailed, false))
  else if remoteDescSet1 then
    (if addOk then (CandidateOutcome.applied, false)
     else (CandidateOutcome.addFailed, false))
  else (CandidateOutcome.droppedNoRemoteDesc, false)

/-- C8: a received ICE candidate is applied only when a live session matching
the sending peer exists and its remote description is set, possibly only
after the single bounded 100 ms recheck; when the remote description is still
unset after that one retry the candidate is dropped; and no branch of the
candidate path ever tears the session down. -/
theorem candidate_handling_guarded (hasSender hasPayload pcExists targetMatch
    pcClosed rd0 rd1 addOk : Bool) :
    ((handleCandidateSignal hasSender hasPayload pcExists targetMatch pcClosed
        rd0 rd1 addOk).1 = CandidateOutcome.applied →
      pcExists = true ∧ targetMatch = true ∧ pcClosed = false ∧
        (rd0 = true ∨ rd1 = true)) ∧
    (handleCandidateSignal hasSender hasPayload pcExists targetMatch pcClosed
        rd0 rd1 addOk).2 = false ∧
    (hasSender = true → hasPayload = true → pcExists = true → targetMatch = true →
      pcClosed = false → rd0 = false → rd1 = false →
      (handleCandidateSignal hasSender hasPayload pcExists targetMatch pcClosed
        rd0 rd1 addOk).1 = CandidateOutcome.droppedNoRemoteDesc) := by
  cases hasSender <;> cases hasPayload <;> cases pcExists <;> cases targetMatch <;>
    cases pcClosed <;> cases rd0 <;> cases rd1 <;> cases addOk <;> decide

theorem candidate_handling_guarded_witness :
    ((handleCandidateSignal true true true true false false true true).1
        = CandidateOutcome.applied →
      (true : Bool) = true ∧ (true : Bool) = true ∧ (false : Bool) = false ∧
        ((false : Bool) = true ∨ (true : Bool) = true)) ∧
    (handleCandidateSignal true true true true false false true true).2 = false ∧
    ((true : Bool) = true → (true : Bool) = true → (true : Bool) = true →
      (true : Bool) = true → (false : Bool) = false → (false : Bool) = false →
      (true : Bool) = false →
      (handleCandidateSignal true true true true false false true true).1
        = CandidateOutcome.droppedNoRemoteDesc) :=
  candidate_handling_guarded true true true true false false true true

/-! ## Peer-session lifecycle (`_createPeerConnection` lines 486-544,
`initiateP2PCall` lines 637-688, inbound-offer handling lines 423-442 with
`_handleOfferViaApi` lines 690-717, `closeP2PConnection` lines 763-800)

The module-level `peerConnectionInstance` / `dataChannelInstance` variables
are embedded with full histories: `pcs` (resp. `dcs`) lists every peer
connection (data channel) ever created, newest first; `pcSet` / `dcSet`
record whether the instance variable currently is non-null.  Every
assignment of the instance variable in the source stores a freshly created
object, so a non-null instance always refers to the newest entry; an
overwrite without teardown would leave a live entry in the tail, which is
exactly what the single-active-session theorem rules out. -/

/-- The `RTCPeerConnection.signalingState` values this store
can produce. -/
inductive PCSigState
  | stable | haveLocalOffer | haveRemoteOffer | closed
deriving DecidableEq

/-- One peer connection: the peer it targets, its signaling state and whether
its event listeners have been detached (nulled in `closeP2PConnection`). -/
structure PCEntry where
  target : String
  sig : PCSigState
  detached : Bool
deriving DecidableEq

/-- One data channel: open flag and whether its listeners are detached. -/
structure DCEntry where
  isOpen : Bool
  detached : Bool
deriving DecidableEq

structure P2PSys where
  myId : String
  joined : Bool
  pcs : List PCEntry
  pcSet : Bool
  dcs : List DCEntry
  dcSet : Bool
  target : Option String
  connected : Bool
deriving DecidableEq

/-- Whether `peerConnectionInstance && peerConnectionInstance.signalingState !== 'closed'`. -/
def curPCLive (s : P2PSys) : Bool :=
  s.pcSet && (match s.pcs with
    | [] => false
    | p :: _ => p.sig != PCSigState.closed)

/-- The signaling state of the current instance (`closed` when null). -/
def curPCSig (s : P2PSys) : PCSigState :=
  if s.pcSet then
    match s.pcs with
    | [] => PCSigState.closed
    | p :: _ => p.sig
  else PCSigState.closed

/-- Mutate the signaling state of the current peer connection (the effect of
`setLocalDescription` / `setRemoteDescription` on the live instance). -/
def setCurPCSig (s : P2PSys) (v : PCSigState) : P2PSys :=
  if s.pcSet then
    match s.pcs with
    | [] => s
    | p :: rest => { s with pcs := { p with sig := v } :: rest }
  else s

/-- Lines 767-777: close the data channel, null its listeners, null the
instance variable. -/
def closeCurDC (s : P2PSys) : P2PSys :=
  if s.dcSet then
    match s.dcs with
    | [] => { s with dcSet := false }
    | d :: rest =>
      let d2 : DCEntry := { d with isOpen := false, detached := true }
      { s with dcs := d2 :: rest, dcSet := false }
  else s

/-- Lines 778-788: close the peer connection, null its listeners, null the
instance variable. -/
def closeCurPC (s : P2PSys) : P2PSys :=
  if s.pcSet then
    match s.pcs with
    | [] => { s with pcSet := false }
    | p :: rest =>
      let p2 : PCEntry := { p with sig := PCSigState.closed, detached := true }
      { s with pcs := p2 :: rest, pcSet := false }
  else s

/-- Models `closeP2PConnection` (lines 763-800). -/
def closeP2PConnection (s : P2PSys) : P2PSys :=
  { closeCurPC (closeCurDC s) with connected := false }

/-- Models `_createPeerConnection` (lines 486-544): fails when not joined; tears
down a live prior connection first (lines 494-497); `ctorOk` models the
`new RTCPeerConnection` constructor not throwing (the catch at lines 539-543
nulls the instance). -/
def createPeerConnection (s : P2PSys) (t : String) (ctorOk : Bool) : P2PSys :=
  if !s.joined then s
  else
    let s1 := if curPCLive s then closeP2PConnection s else s
    if ctorOk then
      { s1 with pcs := ⟨t, PCSigState.stable, false⟩ :: s1.pcs, pcSet := true }
    else { s1 with pcSet := false }

/-- Models `_createDataChannel` (lines 546-562): requires a live peer connection;
`ok` models `createDataChannel` not throwing.  Returns whether a channel was
created. -/
def createDataChannel (s : P2PSys) (ok : Bool) : P2PSys × Bool :=
  if !(curPCLive s) then (s, false)
  else if ok then
    ({ s with dcs := ⟨true, false⟩ :: s.dcs, dcSet := true }, true)
  else (s, false)

/-- Models `initiateP2PCall` (lines 637-688).  Here `pcOk`, `dcOk`, `offerOk` and
`sendOk` model, respectively, the peer-connection constructor, the
data-channel constructor, `createOffer`/`setLocalDescription`, and the
signaling POST succeeding. -/
def initiateP2PCall (s : P2PSys) (t : String) (pcOk dcOk offerOk sendOk : Bool) :
    P2PSys :=
  if !s.joined then s
  else if t = s.myId then s
  else if s.connected ∧ s.target = some t then s
  else
    let s1 := if s.connected ∧ s.target ≠ some t then closeP2PConnection s else s
    let s2 := { s1 with target := some t }
    let s3 := createPeerConnection s2 t pcOk
    if !s3.pcSet then s3
    else
      let r4 := createDataChannel s3 dcOk
      if !r4.2 then closeP2PConnection r4.1
      else if offerOk then
        let s5 := setCurPCSig r4.1 PCSigState.haveLocalOffer
        if sendOk then s5 else closeP2PConnection s5
      else closeP2PConnection r4.1

/-- Models `setTargetPeerIdForP2P` (lines 468-484) on this state slice. -/
def setTargetPeer (s : P2PSys) (p : Option String) : P2PSys :=
  if p = s.target ∧ p ≠ none then s
  else
    let s1 := if s.connected ∧ s.target ≠ p then closeP2PConnection s else s
    let s2 := { s1 with target := p }
    match p with
    | some _ => s2
    | none => { s2 with connected := false }

/-- The inbound-offer path: the `case 'offer'` dispatch (lines 423-442)
followed by `_handleOfferViaApi` (lines 690-717).  `setRemoteDescription`
succeeds from `stable` or `have-remote-offer` and throws otherwise (glare,
`have-local-offer`), in which case the catch tears the session down;
`answerOk` models `createAnswer`/`setLocalDescription` succeeding and
`sendOk` the answer POST succeeding. -/
def handleOfferSignal (s : P2PSys) (sender : String)
    (hasPayload pcOk answerOk sendOk : Bool) : P2PSys :=
  if !hasPayload ∨ sender = s.myId then s
  else
    let s1 := if s.connected ∧ s.target ≠ some sender
              then closeP2PConnection s else s
    let s2 := setTargetPeer s1 (some sender)
    -- source: if (!peerConnectionInstance || signalingState === 'closed') create
    let s3 := if curPCLive s2 then s2 else createPeerConnection s2 sender pcOk
    if !s3.pcSet then s3
    else
      let st := curPCSig s3
      if st = PCSigState.stable ∨ st = PCSigState.haveRemoteOffer then
        if answerOk then
          let s4 := setCurPCSig s3 PCSigState.stable
          if sendOk then s4 else closeP2PConnection s4
        else closeP2PConnection (setCurPCSig s3 PCSigState.haveRemoteOffer)
      else closeP2PConnection s3

/-- The events the single-active-session claim quantifies over: `call`
(`initiateP2PCall`), inbound offers, the connection-state callbacks of the
current instance (handlers of torn-down instances are detached, so only the
current one can fire), and explicit hang-up. -/
inductive P2PEvent
  | call (t : String) (pcOk dcOk offerOk sendOk : Bool)
  | offerSignal (sender : String) (hasPayload pcOk answerOk sendOk : Bool)
  | connEstablished
  | connLost
  | hangUp
deriving DecidableEq

def p2pStep (s : P2PSys) : P2PEvent → P2PSys
  | .call t a b c d => initiateP2PCall s t a b c d
  | .offerSignal sender hp a b c => handleOfferSignal s sender hp a b c
  | .connEstablished => if curPCLive s then { s with connected := true } else s
  | .connLost => if curPCLive s then { s with connected := false } else s
  | .hangUp => closeP2PConnection s

def initP2P (myId : String) (joined : Bool) : P2PSys :=
  { myId := myId, joined := joined, pcs := [], pcSet := false, dcs := [],
    dcSet := false, target := none, connected := false }

def runP2P (myId : String) (joined : Bool) (evts : List P2PEvent) : P2PSys :=
  evts.foldl p2pStep (initP2P myId joined)

/-- A peer connection that has been fully torn down. -/
def pcDown (p : PCEntry) : Prop := p.sig = PCSigState.closed ∧ p.detached = true

/-- A data channel that has been fully torn down. -/
def dcDown (d : DCEntry) : Prop := d.isOpen = false ∧ d.detached = true

/-- The session invariant: every peer connection other than (possibly) the
newest is closed with listeners detached; when the instance variable is
null, the newest too; a non-null instance is live; same for data channels;
and an open data channel requires a non-null peer connection. -/
structure P2PInv (s : P2PSys) : Prop where
  pcTail : ∀ p ∈ s.pcs.drop 1, pcDown p
  pcAll : s.pcSet = false → ∀ p ∈ s.pcs, pcDown p
  pcHead : s.pcSet = true → ∃ p rest, s.pcs = p :: rest ∧ p.sig ≠ PCSigState.closed
  dcTail : ∀ d ∈ s.dcs.drop 1, dcDown d
  dcAll : s.dcSet = false → ∀ d ∈ s.dcs, dcDown d
  dcHead : s.dcSet = true → ∃ d rest, s.dcs = d :: rest ∧ d.isOpen = true
  dcNeedsPc : s.dcSet = true → s.pcSet = true

theorem curPCLive_eq (s : P2PSys) (h : P2PInv s) : curPCLive s = s.pcSet := by
  cases hset : s.pcSet with
  | false => simp [curPCLive, hset]
  | true =>
    obtain ⟨p, rest, hcons, hne⟩ := h.pcHead hset
    simp [curPCLive, hset, hcons, hne]

theorem closeCurDC_spec (s : P2PSys)
    (hTail : ∀ d ∈ s.dcs.drop 1, dcDown d)
    (hAll : s.dcSet = false → ∀ d ∈ s.dcs, dcDown d) :
    (closeCurDC s).pcs = s.pcs ∧ (closeCurDC s).pcSet = s.pcSet ∧
    (closeCurDC s).dcSet = false ∧ (∀ d ∈ (closeCurDC s).dcs, dcDown d) ∧
    (closeCurDC s).myId = s.myId ∧ (closeCurDC s).joined = s.joined ∧
    (closeCurDC s).target = s.target ∧ (closeCurDC s).connected = s.connected := by
  cases hset : s.dcSet with
  | false =>
    have hid : closeCurDC s = s := by simp [closeCurDC, hset]
    rw [hid]
    exact ⟨rfl, rfl, hset, hAll hset, rfl, rfl, rfl, rfl⟩
  | true =>
    simp only [closeCurDC, hset, if_true]
    match hdcs : s.dcs with
    | [] => simp
    | d :: rest =>
      refine ⟨rfl, rfl, rfl, ?_, rfl, rfl, rfl, rfl⟩
      intro x hx
      rcases List.mem_cons.mp hx with hx | hx
      · subst hx
        exact ⟨rfl, rfl⟩
      · exact hTail x (by rw [hdcs]; exact hx)

theorem closeCurPC_spec (s : P2PSys)
    (hTail : ∀ p ∈ s.pcs.drop 1, pcDown p)
    (hAll : s.pcSet = false → ∀ p ∈ s.pcs, pcDown p) :
    (closeCurPC s).dcs = s.dcs ∧ (closeCurPC s).dcSet = s.dcSet ∧
    (closeCurPC s).pcSet = false ∧ (∀ p ∈ (closeCurPC s).pcs, pcDown p) ∧
    (closeCurPC s).myId = s.myId ∧ (closeCurPC s).joined = s.joined ∧
    (closeCurPC s).target = s.target ∧ (closeCurPC s).connected = s.connected := by
  cases hset : s.pcSet with
  | false =>
    have hid : closeCurPC s = s := by simp [closeCurPC, hset]
    rw [hid]
    exact ⟨rfl, rfl, hset, hAll hset, rfl, rfl, rfl, rfl⟩
  | true =>
    simp only [closeCurPC, hset, if_true]
    match hpcs : s.pcs with
    | [] => simp
    | p :: rest =>
      refine ⟨rfl, rfl, rfl, ?_, rfl, rfl, rfl, rfl⟩
      intro x hx
      rcases List.mem_cons.mp hx with hx | hx
      · subst hx
        exact ⟨rfl, rfl⟩
      · exact hTail x (by rw [hpcs]; exact hx)

theorem closeP2P_spec (s : P2PSys)
    (hpcTail : ∀ p ∈ s.pcs.drop 1, pcDown p)
    (hpcAll : s.pcSet = false → ∀ p ∈ s.pcs, pcDown p)
    (hdcTail : ∀ d ∈ s.dcs.drop 1, dcDown d)
    (hdcAll : s.dcSet = false → ∀ d ∈ s.dcs, dcDown d) :
    (closeP2PConnection s).pcSet = false ∧ (closeP2PConnection s).dcSet = false ∧
    (∀ p ∈ (closeP2PConnection s).pcs, pcDown p) ∧
    (∀ d ∈ (closeP2PConnection s).dcs, dcDown d) ∧
    (closeP2PConnection s).myId = s.myId ∧
    (closeP2PConnection s).joined = s.joined ∧
    (closeP2PConnection s).target = s.target ∧
    (closeP2PConnection s).connected = false := by
  obtain ⟨hdc1, hdc2, hdc3, hdc4, hdc5, hdc6, hdc7, hdc8⟩ := closeCurDC_spec s hdcTail hdcAll
  have hTail2 : ∀ p ∈ (closeCurDC s).pcs.drop 1, pcDown p := by
    rw [hdc1]; exact hpcTail
  have hAll2 : (closeCurDC s).pcSet = false → ∀ p ∈ (closeCurDC s).pcs, pcDown p := by
    rw [hdc1, hdc2]; exact hpcAll
  obtain ⟨hpc1, hpc2, hpc3, hpc4, hpc5, hpc6, hpc7, hpc8⟩ :=
    closeCurPC_spec (closeCurDC s) hTail2 hAll2
  refine ⟨hpc3, ?_, hpc4, ?_, ?_, ?_, ?_, rfl⟩
  · show (closeCurPC (closeCurDC s)).dcSet = false
    rw [hpc2, hdc3]
  · show ∀ d ∈ (closeCurPC (closeCurDC s)).dcs, dcDown d
    rw [hpc1]; exact hdc4
  · show (closeCurPC (closeCurDC s)).myId = s.myId
    rw [hpc5, hdc5]
  · show (closeCurPC (closeCurDC s)).joined = s.joined
    rw [hpc6, hdc6]
  · show (closeCurPC (closeCurDC s)).target = s.target
    rw [hpc7, hdc7]

/-- A state with everything torn down satisfies the invariant. -/
theorem inv_of_closed (s : P2PSys) (hpset : s.pcSet = false) (hdset : s.dcSet = false)
    (hp : ∀ p ∈ s.pcs, pcDown p) (hd : ∀ d ∈ s.dcs, dcDown d) : P2PInv s where
  pcTail := fun p hmem => hp p (List.mem_of_mem_drop hmem)
  pcAll := fun _ => hp
  pcHead := fun h => absurd h (by simp [hpset])
  dcTail := fun d hmem => hd d (List.mem_of_mem_drop hmem)
  dcAll := fun _ => hd
  dcHead := fun h => absurd h (by simp [hdset])
  dcNeedsPc := fun h => absurd h (by simp [hdset])

theorem closeP2P_inv (s : P2PSys) (h : P2PInv s) : P2PInv (closeP2PConnection s) := by
  obtain ⟨h1, h2, h3, h4, _, _, _, _⟩ := closeP2P_spec s h.pcTail h.pcAll h.dcTail h.dcAll
  exact inv_of_closed _ h1 h2 h3 h4

/-- After `_createPeerConnection` the invariant still holds, and a
successful creation leaves no data channel at all (the prior one, if any,
was torn down together with the prior connection) and a live current
connection.  The precondition holds at both call sites: `initiateP2PCall`
runs it only when joined, the offer path only when no live connection
exists. -/
theorem createPC_spec (s : P2PSys) (t : String) (ok : Bool) (h : P2PInv s)
    (hpre : s.joined = true ∨ s.pcSet = false) :
    P2PInv (createPeerConnection s t ok) ∧
    ((createPeerConnection s t ok).pcSet = true →
      (createPeerConnection s t ok).dcSet = false ∧
      (∀ d ∈ (createPeerConnection s t ok).dcs, dcDown d) ∧
      curPCLive (createPeerConnection s t ok) = true) := by
  cases hj : s.joined with
  | false =>
    have hid : createPeerConnection s t ok = s := by simp [createPeerConnection, hj]
    rw [hid]
    have hpset : s.pcSet = false := by
      rcases hpre with hpre | hpre
      · rw [hj] at hpre; cases hpre
      · exact hpre
    exact ⟨h, fun hc => absurd hc (by simp [hpset])⟩
  | true =>
    -- after the conditional teardown everything is down
    have hs1 : (if curPCLive s then closeP2PConnection s else s).pcSet = false ∧
        (if curPCLive s then closeP2PConnection s else s).dcSet = false ∧
        (∀ p ∈ (if curPCLive s then closeP2PConnection s else s).pcs, pcDown p) ∧
        (∀ d ∈ (if curPCLive s then closeP2PConnection s else s).dcs, dcDown d) := by
      cases hlive : curPCLive s with
      | true =>
        simp only [if_true]
        obtain ⟨h1, h2, h3, h4, _, _, _, _⟩ :=
          closeP2P_spec s h.pcTail h.pcAll h.dcTail h.dcAll
        exact ⟨h1, h2, h3, h4⟩
      | false =>
        simp only [Bool.false_eq_true, if_false]
        have hpset : s.pcSet = false := by
          rw [← curPCLive_eq s h, hlive]
        have hdset : s.dcSet = false := by
          cases hd : s.dcSet with
          | false => rfl
          | true => rw [h.dcNeedsPc hd] at hpset; cases hpset
        exact ⟨hpset, hdset, h.pcAll hpset, h.dcAll hdset⟩
    obtain ⟨h1, h2, h3, h4⟩ := hs1
    simp only [createPeerConnection, hj, Bool.not_true, Bool.false_eq_true, if_false]
    cases ok with
    | true =>
      simp only [if_true]
      constructor
      · exact
          { pcTail := by
              intro p hp
              simp only [List.drop_one, List.tail_cons] at hp
              exact h3 p hp
            pcAll := by intro hc; cases hc
            pcHead := by
              intro _
              exact ⟨⟨t, PCSigState.stable, false⟩, _, rfl, by simp⟩
            dcTail := fun d hd => h4 d (List.mem_of_mem_drop hd)
            dcAll := fun _ => h4
            dcHead := by
              intro hc
              rw [h2] at hc; cases hc
            dcNeedsPc := fun _ => rfl }
      · intro _
        refine ⟨h2, h4, ?_⟩
        simp [curPCLive]
    | false =>
      simp only [Bool.false_eq_true, if_false]
      constructor
      · exact inv_of_closed _ rfl h2 h3 h4
      · intro hc; cases hc

/-- Lemma: `_createDataChannel` preserves the invariant when no stale channel is
around (which `_createPeerConnection` guarantees at its call site). -/
theorem createDC_spec (s : P2PSys) (ok : Bool) (h : P2PInv s)
    (_hdset : s.dcSet = false) (hdcs : ∀ d ∈ s.dcs, dcDown d) :
    P2PInv (createDataChannel s ok).1 ∧
    ((createDataChannel s ok).2 = false → (createDataChannel s ok).1 = s) ∧
    ((createDataChannel s ok).2 = true →
      (createDataChannel s ok).1.pcSet = s.pcSet ∧
      (createDataChannel s ok).1.pcs = s.pcs ∧ curPCLive s = true) := by
  cases hlive : curPCLive s with
  | false =>
    have hid : createDataChannel s ok = (s, false) := by
      simp [createDataChannel, hlive]
    rw [hid]
    exact ⟨h, fun _ => rfl, fun hc => by cases hc⟩
  | true =>
    have hpset : s.pcSet = true := by rw [← curPCLive_eq s h]; exact hlive
    cases ok with
    | false =>
      have hid : createDataChannel s false = (s, false) := by
        simp [createDataChannel, hlive]
      rw [hid]
      exact ⟨h, fun _ => rfl, fun hc => by cases hc⟩
    | true =>
      have hid : createDataChannel s true
          = ({ s with dcs := ⟨true, false⟩ :: s.dcs, dcSet := true }, true) := by
        simp [createDataChannel, hlive]
      rw [hid]
      refine ⟨?_, ?_, ?_⟩
      · exact
          { pcTail := h.pcTail
            pcAll := h.pcAll
            pcHead := h.pcHead
            dcTail := by
              intro d hd
              simp only [List.drop_one, List.tail_cons] at hd
              exact hdcs d hd
            dcAll := by intro hc; cases hc
            dcHead := fun _ => ⟨⟨true, false⟩, _, rfl, rfl⟩
            dcNeedsPc := fun _ => hpset }
      · intro hc
        cases hc
      · intro _
        exact ⟨rfl, rfl, rfl⟩

/-- Lemma: `setLocalDescription` / `setRemoteDescription` with a non-closed
signaling state preserve the invariant and all other fields. -/
theorem setCurPCSig_spec (s : P2PSys) (v : PCSigState)
    (hv : v ≠ PCSigState.closed) (h : P2PInv s) :
    P2PInv (setCurPCSig s v) ∧
    (setCurPCSig s v).pcSet = s.pcSet ∧ (setCurPCSig s v).dcSet = s.dcSet ∧
    (setCurPCSig s v).dcs = s.dcs ∧ (setCurPCSig s v).joined = s.joined ∧
    (setCurPCSig s v).target = s.target := by
  cases hset : s.pcSet with
  | false =>
    have hid : setCurPCSig s v = s := by simp [setCurPCSig, hset]
    rw [hid]
    exact ⟨h, hset, rfl, rfl, rfl, rfl⟩
  | true =>
    obtain ⟨p, rest, hcons, hne⟩ := h.pcHead hset
    have hid : setCurPCSig s v = { s with pcs := { p with sig := v } :: rest } := by
      simp [setCurPCSig, hset, hcons]
    rw [hid]
    refine ⟨?_, hset, rfl, rfl, rfl, rfl⟩
    exact
      { pcTail := by
          intro q hq
          simp only [List.drop_one, List.tail_cons] at hq
          exact h.pcTail q (by rw [hcons]; simpa using hq)
        pcAll := by intro hc; cases hset ▸ hc
        pcHead := fun _ => ⟨{ p with sig := v }, rest, rfl, by simpa using hv⟩
        dcTail := h.dcTail
        dcAll := h.dcAll
        dcHead := h.dcHead
        dcNeedsPc := fun hd => hset ▸ h.dcNeedsPc hd }

theorem inv_retarget (s : P2PSys) (p : Option String) (h : P2PInv s) :
    P2PInv { s with target := p } :=
  ⟨h.pcTail, h.pcAll, h.pcHead, h.dcTail, h.dcAll, h.dcHead, h.dcNeedsPc⟩

theorem inv_connected_flag (s : P2PSys) (b : Bool) (h : P2PInv s) :
    P2PInv { s with connected := b } :=
  ⟨h.pcTail, h.pcAll, h.pcHead, h.dcTail, h.dcAll, h.dcHead, h.dcNeedsPc⟩

theorem setTargetPeer_inv (s : P2PSys) (p : Option String) (h : P2PInv s) :
    P2PInv (setTargetPeer s p) := by
  simp only [setTargetPeer]
  by_cases h0 : p = s.target ∧ p ≠ none
  · rw [if_pos h0]
    exact h
  · rw [if_neg h0]
    have h1 : P2PInv (if s.connected ∧ s.target ≠ p then closeP2PConnection s else s) := by
      by_cases hc : s.connected ∧ s.target ≠ p
      · rw [if_pos hc]
        exact closeP2P_inv s h
      · rw [if_neg hc]
        exact h
    cases p with
    | some q =>
      exact ⟨h1.pcTail, h1.pcAll, h1.pcHead, h1.dcTail, h1.dcAll, h1.dcHead,
        h1.dcNeedsPc⟩
    | none =>
      exact ⟨h1.pcTail, h1.pcAll, h1.pcHead, h1.dcTail, h1.dcAll, h1.dcHead,
        h1.dcNeedsPc⟩

theorem initiateP2PCall_inv (s : P2PSys) (t : String) (a b c d : Bool)
    (h : P2PInv s) : P2PInv (initiateP2PCall s t a b c d) := by
  simp only [initiateP2PCall]
  by_cases hj : (!s.joined) = true
  · rw [if_pos hj]
    exact h
  · rw [if_neg hj]
    have hjoined : s.joined = true := by
      cases hv : s.joined
      · rw [hv] at hj
        simp at hj
      · rfl
    by_cases hm : t = s.myId
    · rw [if_pos hm]
      exact h
    · rw [if_neg hm]
      by_cases hc : s.connected ∧ s.target = some t
      · rw [if_pos hc]
        exact h
      · rw [if_neg hc]
        set s1 := if s.connected ∧ s.target ≠ some t then closeP2PConnection s else s
          with hs1
        have h1 : P2PInv s1 := by
          rw [hs1]
          by_cases hcc : s.connected ∧ s.target ≠ some t
          · rw [if_pos hcc]
            exact closeP2P_inv s h
          · rw [if_neg hcc]
            exact h
        have h1j : s1.joined = true := by
          rw [hs1]
          by_cases hcc : s.connected ∧ s.target ≠ some t
          · rw [if_pos hcc,
              (closeP2P_spec s h.pcTail h.pcAll h.dcTail h.dcAll).2.2.2.2.2.1]
            exact hjoined
          · rw [if_neg hcc]
            exact hjoined
        have h2 : P2PInv { s1 with target := some t } := inv_retarget _ _ h1
        obtain ⟨h3inv, h3post⟩ :=
          createPC_spec { s1 with target := some t } t a h2 (Or.inl h1j)
        set s3 := createPeerConnection { s1 with target := some t } t a with hs3
        by_cases hset : (!s3.pcSet) = true
        · rw [if_pos hset]
          exact h3inv
        · rw [if_neg hset]
          have hset2 : s3.pcSet = true := by
            cases hv : s3.pcSet
            · rw [hv] at hset
              simp at hset
            · rfl
          obtain ⟨hdset3, hdcs3, hlive3⟩ := h3post hset2
          obtain ⟨h4inv, h4f, h4t⟩ := createDC_spec s3 b h3inv hdset3 hdcs3
          set r4 := createDataChannel s3 b with hr4
          by_cases hdc : (!r4.2) = true
          · rw [if_pos hdc]
            exact closeP2P_inv _ h4inv
          · rw [if_neg hdc]
            obtain ⟨h5inv, _, _, _, _, _⟩ :=
              setCurPCSig_spec r4.1 PCSigState.haveLocalOffer (by simp) h4inv
            by_cases hoff : c = true
            · rw [if_pos hoff]
              by_cases hsend : d = true
              · rw [if_pos hsend]
                exact h5inv
              · rw [if_neg hsend]
                exact closeP2P_inv _ h5inv
            · rw [if_neg hoff]
              exact closeP2P_inv _ h4inv

theorem handleOfferSignal_inv (s : P2PSys) (sender : String)
    (hp a b c : Bool) (h : P2PInv s) :
    P2PInv (handleOfferSignal s sender hp a b c) := by
  simp only [handleOfferSignal]
  by_cases h0 : (!hp) = true ∨ sender = s.myId
  · rw [if_pos h0]
    exact h
  · rw [if_neg h0]
    set s1 := if s.connected ∧ s.target ≠ some sender then closeP2PConnection s else s
      with hs1
    have h1 : P2PInv s1 := by
      rw [hs1]
      by_cases hcc : s.connected ∧ s.target ≠ some sender
      · rw [if_pos hcc]
        exact closeP2P_inv s h
      · rw [if_neg hcc]
        exact h
    have h2 : P2PInv (setTargetPeer s1 (some sender)) := setTargetPeer_inv s1 _ h1
    set s2 := setTargetPeer s1 (some sender) with hs2
    have h3pair : P2PInv (if curPCLive s2
        then s2 else createPeerConnection s2 sender a) ∧
        ((if curPCLive s2 then s2 else createPeerConnection s2 sender a).pcSet
            = true →
          curPCLive (if curPCLive s2 then s2
            else createPeerConnection s2 sender a) = true) := by
      by_cases hlive : curPCLive s2 = true
      · rw [if_pos hlive]
        exact ⟨h2, fun _ => hlive⟩
      · rw [if_neg hlive]
        have hpset2 : s2.pcSet = false := by
          rw [← curPCLive_eq s2 h2]
          cases hv : curPCLive s2
          · rfl
          · exact absurd hv hlive
        obtain ⟨hinv, hpost⟩ := createPC_spec s2 sender a h2 (Or.inr hpset2)
        exact ⟨hinv, fun hs => (hpost hs).2.2⟩
    obtain ⟨h3, h3live⟩ := h3pair
    set s3 := if curPCLive s2 then s2 else createPeerConnection s2 sender a
      with hs3
    by_cases hset : (!s3.pcSet) = true
    · rw [if_pos hset]
      exact h3
    · rw [if_neg hset]
      by_cases hsig : curPCSig s3 = PCSigState.stable ∨
          curPCSig s3 = PCSigState.haveRemoteOffer
      · rw [if_pos hsig]
        by_cases hans : b = true
        · rw [if_pos hans]
          obtain ⟨h4inv, _, _, _, _, _⟩ :=
            setCurPCSig_spec s3 PCSigState.stable (by simp) h3
          by_cases hsend : c = true
          · rw [if_pos hsend]
            exact h4inv
          · rw [if_neg hsend]
            exact closeP2P_inv _ h4inv
        · rw [if_neg hans]
          obtain ⟨h4inv, _, _, _, _, _⟩ :=
            setCurPCSig_spec s3 PCSigState.haveRemoteOffer (by simp) h3
          exact closeP2P_inv _ h4inv
      · rw [if_neg hsig]
        exact closeP2P_inv _ h3

theorem p2pStep_inv (s : P2PSys) (e : P2PEvent) (h : P2PInv s) :
    P2PInv (p2pStep s e) := by
  cases e with
  | call t a b c d => exact initiateP2PCall_inv s t a b c d h
  | offerSignal sender hp a b c => exact handleOfferSignal_inv s sender hp a b c h
  | connEstablished =>
    simp only [p2pStep]
    by_cases hl : curPCLive s = true
    · rw [if_pos hl]
      exact inv_connected_flag _ _ h
    · rw [if_neg hl]
      exact h
  | connLost =>
    simp only [p2pStep]
    by_cases hl : curPCLive s = true
    · rw [if_pos hl]
      exact inv_connected_flag _ _ h
    · rw [if_neg hl]
      exact h
  | hangUp => exact closeP2P_inv s h

theorem initP2P_inv (myId : String) (joined : Bool) : P2PInv (initP2P myId joined) where
  pcTail := by simp [initP2P]
  pcAll := by simp [initP2P]
  pcHead := by simp [initP2P]
  dcTail := by simp [initP2P]
  dcAll := by simp [initP2P]
  dcHead := by simp [initP2P]
  dcNeedsPc := by simp [initP2P]

theorem runP2P_inv (myId : String) (joined : Bool) (evts : List P2PEvent) :
    P2PInv (runP2P myId joined evts) := by
  have key : ∀ (es : List P2PEvent) (s : P2PSys), P2PInv s →
      P2PInv (es.foldl p2pStep s) := by
    intro es
    induction es with
    | nil => intro s hs; exact hs
    | cons e es ih =>
      intro s hs
      exact ih (p2pStep s e) (p2pStep_inv s e hs)
  exact key evts (initP2P myId joined) (initP2P_inv myId joined)

theorem pc_live_filter_le_one (s : P2PSys) (h : P2PInv s) :
    (s.pcs.filter (fun p => p.sig != PCSigState.closed)).length ≤ 1 := by
  match hpcs : s.pcs with
  | [] => simp
  | p :: rest =>
    have hrest : rest.filter (fun p => p.sig != PCSigState.closed) = [] := by
      refine List.filter_eq_nil_iff.mpr ?_
      intro a ha
      have hd := h.pcTail a (by rw [hpcs]; simpa using ha)
      simp [hd.1]
    rw [List.filter_cons, hrest]
    split <;> simp

theorem dc_open_filter_le_one (s : P2PSys) (h : P2PInv s) :
    (s.dcs.filter (fun d => d.isOpen)).length ≤ 1 := by
  match hdcs : s.dcs with
  | [] => simp
  | d :: rest =>
    have hrest : rest.filter (fun d => d.isOpen) = [] := by
      refine List.filter_eq_nil_iff.mpr ?_
      intro a ha
      have hd := h.dcTail a (by rw [hdcs]; simpa using ha)
      simp [hd.1]
    rw [List.filter_cons, hrest]
    split <;> simp

/-- C4: single active session.  Over every sequence of `call`
(`initiateP2PCall`), inbound-offer, connection-state and hang-up events, at
most one peer connection and at most one data channel are live at any
instant; and every peer connection or data channel other than the one the
instance variable currently references — in particular every prior one when
a new one is created — has been fully torn down: closed, with its event
listeners detached, and no longer referenced. -/
theorem p2p_single_active_session (myId : String) (joined : Bool)
    (evts : List P2PEvent) :
    ((runP2P myId joined evts).pcs.filter
        (fun p => p.sig != PCSigState.closed)).length ≤ 1 ∧
    ((runP2P myId joined evts).dcs.filter (fun d => d.isOpen)).length ≤ 1 ∧
    (∀ p ∈ (runP2P myId joined evts).pcs.drop 1,
      p.sig = PCSigState.closed ∧ p.detached = true) ∧
    ((runP2P myId joined evts).pcSet = false →
      ∀ p ∈ (runP2P myId joined evts).pcs,
        p.sig = PCSigState.closed ∧ p.detached = true) ∧
    (∀ d ∈ (runP2P myId joined evts).dcs.drop 1,
      d.isOpen = false ∧ d.detached = true) ∧
    ((runP2P myId joined evts).dcSet = false →
      ∀ d ∈ (runP2P myId joined evts).dcs,
        d.isOpen = false ∧ d.detached = true) := by
  have h := runP2P_inv myId joined evts
  exact ⟨pc_live_filter_le_one _ h, dc_open_filter_le_one _ h, h.pcTail, h.pcAll,
    h.dcTail, h.dcAll⟩

/-- A scenario with a call to `B`, an overriding inbound offer from `C`
after the connection came up, and a further call to `D`. -/
def sessionScenario : List P2PEvent :=
  [P2PEvent.call "B" true true true true, P2PEvent.connEstablished,
    P2PEvent.offerSignal "C" true true true true, P2PEvent.connEstablished,
    P2PEvent.call "D" true true true true]

theorem p2p_single_active_session_witness :
    ((runP2P "A" true sessionScenario).pcs.filter
        (fun p => p.sig != PCSigState.closed)).length ≤ 1 ∧
    ((runP2P "A" true sessionScenario).dcs.filter
        (fun d => d.isOpen)).length ≤ 1 :=
  ⟨(p2p_single_active_session "A" true sessionScenario).1,
    (p2p_single_active_session "A" true sessionScenario).2.1⟩

end WebRTCStore
